import Mathlib

/-!
The scanner of package `osmpbf`.

A shallow embedding of `osmpbf/scanner.go`: the `Scanner` struct and its methods
`New`, `FullyScannedBytes`, `Close`, `Scan`, `Element` and `Err`.

* A Go `error` is an `Option GoError`; `none` is the nil error.
* The `context.Context` held by the scanner is a value recording what `ctx.Err()`
  returns at the moment; the environment cancelling the context is the
  operation `Context.cancel`.
* The block decoder (`decoder`, `newDecoder`) is declared in another file of the
  package. Its behaviour is a parameter `Behaviour`: arbitrary functions on an
  arbitrary state type. The `decoder` value additionally carries a log of the
  method calls made on it, so that statements of the form "the decoder is not
  invoked" can be written down.
-/

namespace osmpbf

/-! ## Errors and contexts -/

/-- Go error values that the scanner distinguishes, and all the others. -/
inductive GoError where
  /-- The value `io.EOF`. -/
  | EOF
  /-- The value `osm.ErrScannerClosed`. -/
  | ErrScannerClosed
  /-- The value `context.Canceled`. -/
  | Canceled
  /-- The value `context.DeadlineExceeded`. -/
  | DeadlineExceeded
  /-- Any other error value, identified by a code. -/
  | other (code : Nat)
  deriving DecidableEq, Repr

/-- A Go `error` interface value; `none` is `nil`. -/
abbrev error := Option GoError

/-- The observable state of a `context.Context`: the value that `ctx.Err()`
returns now (`none` while the context is live). -/
structure Context where
  err : error
  deriving DecidableEq, Repr

/-- The context `context.Background()`: never cancelled. -/
def Context.Background : Context := { err := none }

/-- The method `ctx.Err()`. -/
def Context.Err (c : Context) : error := c.err

/-- The environment cancels the context (or its deadline passes) with the given
cause. Following the contract of `context.Context`, once `Err` is non-nil it
keeps returning the same error, so cancelling a cancelled context changes nothing. -/
def Context.cancel (c : Context) (cause : GoError) : Context :=
  match c.err with
  | none => { err := some cause }
  | some _ => c

/-! ## The block decoder -/

/-- A method call received by the decoder. -/
inductive Call where
  | Start (n : Int)
  | Next
  | Close
  deriving DecidableEq, Repr

/-- The behaviour of the block decoder, whose code is outside `scanner.go`:
`newDecoder`, `Start`, `Next`, `Close` and the field `cOffset`, as functions on
a decoder state `δ`. Elements have type `ε` and the reader has type `ρ`.
The decoder is built with the context, so each method may read it. -/
structure Behaviour (δ ε ρ : Type) where
  newDecoder : Context → ρ → δ
  Start : Context → Int → δ → δ × error
  Next : Context → δ → δ × ε × error
  Close : Context → δ → δ × error
  cOffset : δ → Int

/-- The decoder object held by the scanner: its state and the log of the calls
made on it so far, oldest first. -/
structure decoder (δ : Type) where
  st : δ
  calls : List Call

section Defs

variable {δ ε ρ : Type}

/-- The function `newDecoder(ctx, r)`. -/
def newDecoder (B : Behaviour δ ε ρ) (ctx : Context) (r : ρ) : decoder δ :=
  { st := B.newDecoder ctx r, calls := [] }

/-- The method `dec.Start(n)`. -/
def decoder.Start (B : Behaviour δ ε ρ) (ctx : Context) (n : Int) (d : decoder δ) :
    decoder δ × error :=
  ({ st := (B.Start ctx n d.st).1, calls := d.calls ++ [Call.Start n] }, (B.Start ctx n d.st).2)

/-- The method `dec.Next()`. -/
def decoder.Next (B : Behaviour δ ε ρ) (ctx : Context) (d : decoder δ) :
    decoder δ × ε × error :=
  ({ st := (B.Next ctx d.st).1, calls := d.calls ++ [Call.Next] },
    (B.Next ctx d.st).2.1, (B.Next ctx d.st).2.2)

/-- The method `dec.Close()`. -/
def decoder.Close (B : Behaviour δ ε ρ) (ctx : Context) (d : decoder δ) :
    decoder δ × error :=
  ({ st := (B.Close ctx d.st).1, calls := d.calls ++ [Call.Close] }, (B.Close ctx d.st).2)

/-- The field `dec.cOffset`. -/
def decoder.cOffset (B : Behaviour δ ε ρ) (d : decoder δ) : Int :=
  B.cOffset d.st

/-- Number of `Next` calls the decoder has received. -/
def decoder.nextCalls (d : decoder δ) : Nat :=
  d.calls.count Call.Next

/-- Number of `Close` calls the decoder has received. -/
def decoder.closeCalls (d : decoder δ) : Nat :=
  d.calls.count Call.Close

/-- Whether a call is a `Start` call. -/
def Call.isStart : Call → Bool
  | Call.Start _ => true
  | _ => false

/-- Number of `Start` calls the decoder has received. -/
def decoder.startCalls (d : decoder δ) : Nat :=
  (d.calls.filter Call.isStart).length

/-! ## The scanner -/

/-- The struct `Scanner`. The field `ctx` stands for the context the scanner
refers to; `next` is an `osm.Element`, whose nil value is `default`. -/
structure Scanner (δ ε : Type) where
  ctx : Context
  closed : Bool
  decoder : decoder δ
  started : Bool
  procs : Int
  next : ε
  err : error

/-- The context `New` works with: `context.Background()` when given nil. -/
def Context.orBackground : Option Context → Context
  | none => Context.Background
  | some c => c

/-- The function `New(ctx, r, procs)`; a nil `ctx` is `none`. -/
def New [Inhabited ε] (B : Behaviour δ ε ρ) (ctx : Option Context) (r : ρ) (procs : Int) :
    Scanner δ ε :=
  let ctx := Context.orBackground ctx
  { ctx := ctx
    closed := false
    decoder := newDecoder B ctx r
    started := false
    procs := procs
    next := default
    err := none }

/-- The method `FullyScannedBytes`. -/
def Scanner.FullyScannedBytes (B : Behaviour δ ε ρ) (s : Scanner δ ε) : Int :=
  s.decoder.cOffset B

/-- The method `Close`: the scanner afterwards and the returned error. -/
def Scanner.Close (B : Behaviour δ ε ρ) (s : Scanner δ ε) : Scanner δ ε × error :=
  let s := { s with closed := true }
  let r := s.decoder.Close B s.ctx
  ({ s with decoder := r.1 }, r.2)

/-- The first statement of `Scan`: start the decoder unless already started. -/
def Scanner.startIfNeeded (B : Behaviour δ ε ρ) (s : Scanner δ ε) : Scanner δ ε :=
  if !s.started then
    let s := { s with started := true }
    let r := s.decoder.Start B s.ctx s.procs
    { s with decoder := r.1, err := r.2 }
  else s

/-- The method `Scan`: the scanner afterwards and the returned boolean. -/
def Scanner.Scan (B : Behaviour δ ε ρ) (s : Scanner δ ε) : Scanner δ ε × Bool :=
  let s := s.startIfNeeded B
  if s.err ≠ none ∨ s.closed = true ∨ s.ctx.Err ≠ none then
    (s, false)
  else
    let r := s.decoder.Next B s.ctx
    let s := { s with decoder := r.1, next := r.2.1, err := r.2.2 }
    if s.err ≠ none then
      (s, false)
    else
      (s, true)

/-- The method `Element`. -/
def Scanner.Element (s : Scanner δ ε) : ε :=
  s.next

/-- The method `Err`. -/
def Scanner.Err (s : Scanner δ ε) : error :=
  if s.err = some GoError.EOF then
    none
  else if s.err ≠ none then
    s.err
  else if s.closed then
    some GoError.ErrScannerClosed
  else
    s.ctx.Err

/-! ## Runs -/

/-- An operation on a scanner: a `Scan` call, a `Close` call, or the
environment cancelling the scanner's context. -/
inductive Op where
  | Scan
  | Close
  | Cancel (cause : GoError)
  deriving DecidableEq, Repr

/-- The context of the scanner is cancelled by the environment. -/
def Scanner.cancel (s : Scanner δ ε) (cause : GoError) : Scanner δ ε :=
  { s with ctx := s.ctx.cancel cause }

/-- The scanner after one operation. -/
def Scanner.step (B : Behaviour δ ε ρ) (s : Scanner δ ε) : Op → Scanner δ ε
  | Op.Scan => (s.Scan B).1
  | Op.Close => (s.Close B).1
  | Op.Cancel c => s.cancel c

/-- The scanner after a sequence of operations, performed left to right. -/
def Scanner.run (B : Behaviour δ ε ρ) (s : Scanner δ ε) : List Op → Scanner δ ε
  | [] => s
  | o :: os => (s.step B o).run B os

/-- The scanner after `n` consecutive `Scan` calls. -/
def Scanner.scans (B : Behaviour δ ε ρ) (s : Scanner δ ε) : Nat → Scanner δ ε
  | 0 => s
  | n + 1 => ((s.Scan B).1).scans B n

/-- The scanner after `n` consecutive `Close` calls. -/
def Scanner.closes (B : Behaviour δ ε ρ) (s : Scanner δ ε) : Nat → Scanner δ ε
  | 0 => s
  | n + 1 => ((s.Close B).1).closes B n

/-- The operation is not a `Close` call. -/
def Op.notClose : Op → Bool
  | Op.Close => false
  | _ => true

/-- The decoder state after `n` calls of `Next` under context `ctx`. -/
def Behaviour.afterNexts (B : Behaviour δ ε ρ) (ctx : Context) (d : δ) : Nat → δ
  | 0 => d
  | n + 1 => B.afterNexts ctx (B.Next ctx d).1 n

/-- The element and error returned by call number `i` (counted from 0) in a
series of `Next` calls begun in state `d` under context `ctx`. -/
def Behaviour.nthNext (B : Behaviour δ ε ρ) (ctx : Context) (d : δ) (i : Nat) : ε × error :=
  (B.Next ctx (B.afterNexts ctx d i)).2

/-! ## Method calls and the specified value of `Err` -/

/-- A call of one of the methods of `Scanner`, or the environment cancelling
the context of the scanner. -/
inductive Method where
  | Scan
  | Close
  | Element
  | Err
  | FullyScannedBytes
  | Cancel (cause : GoError)
  deriving DecidableEq, Repr

/-- The scanner after one method call. `Element`, `Err` and
`FullyScannedBytes` only read the scanner. -/
def Scanner.invoke (B : Behaviour δ ε ρ) (s : Scanner δ ε) : Method → Scanner δ ε
  | Method.Scan => (s.Scan B).1
  | Method.Close => (s.Close B).1
  | Method.Element => s
  | Method.Err => s
  | Method.FullyScannedBytes => s
  | Method.Cancel c => s.cancel c

/-- The scanner after a sequence of method calls, performed left to right. -/
def Scanner.invokes (B : Behaviour δ ε ρ) (s : Scanner δ ε) : List Method → Scanner δ ε
  | [] => s
  | m :: ms => (s.invoke B m).invokes B ms

/-- The values returned by the `FullyScannedBytes` calls of a sequence of
method calls, in the order of the calls. -/
def Scanner.offsets (B : Behaviour δ ε ρ) (s : Scanner δ ε) : List Method → List Int
  | [] => []
  | Method.FullyScannedBytes :: ms =>
    s.FullyScannedBytes B :: (s.invoke B Method.FullyScannedBytes).offsets B ms
  | m :: ms => (s.invoke B m).offsets B ms

/-- The value of `Err()` in the words of the specification: nil when the
latched error is `io.EOF`; otherwise the latched error when there is one;
otherwise the closed indicator when the scanner is closed; otherwise the error
of the context. -/
def Scanner.ErrSpec (s : Scanner δ ε) : error :=
  match s.err with
  | some GoError.EOF => none
  | some e => some e
  | none =>
    match s.closed with
    | true => some GoError.ErrScannerClosed
    | false => s.ctx.Err

/-! ## A concrete decoder, for examples -/

/-- What a scripted decoder will answer: the result of `Start`, then the
results of successive `Next` calls; after the script `Next` gives `io.EOF`. -/
structure Script where
  startErr : error
  nexts : List (Nat × error)
  deriving DecidableEq, Repr

/-- A decoder that replays a script given to it as its reader; elements are
natural numbers, the nil element is `0`, and the offset counts pulled answers. -/
def scripted : Behaviour (Script × Int) Nat Script where
  newDecoder := fun _ r => (r, 0)
  Start := fun _ _ d => (d, d.1.startErr)
  Next := fun _ d =>
    match d.1.nexts with
    | [] => (d, 0, some GoError.EOF)
    | x :: xs => (({ d.1 with nexts := xs }, d.2 + 1), x.1, x.2)
  Close := fun _ d => (d, none)
  cOffset := fun d => d.2

end Defs

/-! ## Basic facts about `Scan` -/

section Lemmas

variable {δ ε ρ : Type}

/-- The scanner is started, open, live and has no latched error. -/
def Scanner.Running (s : Scanner δ ε) : Prop :=
  s.started = true ∧ s.err = none ∧ s.closed = false ∧ s.ctx.Err = none

/-- The scanner is started and one of the three stop conditions of `Scan` holds. -/
def Scanner.Stopped (s : Scanner δ ε) : Prop :=
  s.started = true ∧ (s.err ≠ none ∨ s.closed = true ∨ s.ctx.Err ≠ none)

theorem startIfNeeded_of_started (B : Behaviour δ ε ρ) (s : Scanner δ ε)
    (h : s.started = true) : s.startIfNeeded B = s := by
  simp [Scanner.startIfNeeded, h]

theorem startIfNeeded_started (B : Behaviour δ ε ρ) (s : Scanner δ ε) :
    (s.startIfNeeded B).started = true := by
  unfold Scanner.startIfNeeded
  by_cases h : s.started = true <;> simp [h]

theorem Scan_startIfNeeded (B : Behaviour δ ε ρ) (s : Scanner δ ε) :
    (s.startIfNeeded B).Scan B = s.Scan B := by
  unfold Scanner.Scan
  rw [startIfNeeded_of_started B _ (startIfNeeded_started B s)]

theorem Scan_of_stopped (B : Behaviour δ ε ρ) (s : Scanner δ ε) (h : s.Stopped) :
    s.Scan B = (s, false) := by
  unfold Scanner.Scan
  rw [startIfNeeded_of_started B s h.1]
  simp only [if_pos h.2]

theorem Scan_of_running (B : Behaviour δ ε ρ) (s : Scanner δ ε) (h : s.Running) :
    s.Scan B =
      ({ s with
          decoder := (s.decoder.Next B s.ctx).1
          next := (s.decoder.Next B s.ctx).2.1
          err := (s.decoder.Next B s.ctx).2.2 },
        decide ((B.Next s.ctx s.decoder.st).2.2 = none)) := by
  obtain ⟨h1, h2, h3, h4⟩ := h
  unfold Scanner.Scan
  rw [startIfNeeded_of_started B s h1]
  by_cases hn : (B.Next s.ctx s.decoder.st).2.2 = none <;>
    simp [h2, h3, h4, hn, decoder.Next]

theorem stopped_of_Scan_false (B : Behaviour δ ε ρ) (s : Scanner δ ε)
    (h : (s.Scan B).2 = false) : (s.Scan B).1.Stopped := by
  have hs := startIfNeeded_started B s
  unfold Scanner.Scan at h ⊢
  by_cases hc : (s.startIfNeeded B).err ≠ none ∨ (s.startIfNeeded B).closed = true ∨
      (s.startIfNeeded B).ctx.Err ≠ none
  · simp only [if_pos hc]
    exact ⟨hs, hc⟩
  · simp only [if_neg hc] at h ⊢
    by_cases hn : ((s.startIfNeeded B).decoder.Next B (s.startIfNeeded B).ctx).2.2 = none
    · simp [hn] at h
    · simp only [ne_eq, hn, not_false_eq_true, if_true]
      exact ⟨hs, Or.inl hn⟩

theorem scans_succ (B : Behaviour δ ε ρ) (s : Scanner δ ε) (n : Nat) :
    s.scans B (n + 1) = ((s.scans B n).Scan B).1 := by
  induction n generalizing s with
  | zero => rfl
  | succ k ih =>
    show ((s.Scan B).1).scans B (k + 1) = _
    rw [ih]
    rfl

theorem afterNexts_succ (B : Behaviour δ ε ρ) (ctx : Context) (d : δ) (n : Nat) :
    B.afterNexts ctx d (n + 1) = (B.Next ctx (B.afterNexts ctx d n)).1 := by
  induction n generalizing d with
  | zero => rfl
  | succ k ih =>
    show B.afterNexts ctx (B.Next ctx d).1 (k + 1) = _
    rw [ih]
    rfl

/-- While the decoder keeps returning records, `n` scans of a running scanner
leave it running, with the decoder advanced by `n` pulls. -/
theorem scans_running (B : Behaviour δ ε ρ) (s : Scanner δ ε) (h : s.Running) (n : Nat)
    (hok : ∀ i, i < n → (B.nthNext s.ctx s.decoder.st i).2 = none) :
    (s.scans B n).Running ∧ (s.scans B n).ctx = s.ctx ∧
      (s.scans B n).decoder.st = B.afterNexts s.ctx s.decoder.st n ∧
      (s.scans B n).decoder.calls = s.decoder.calls ++ List.replicate n Call.Next ∧
      (s.scans B n).procs = s.procs := by
  induction n with
  | zero => exact ⟨h, rfl, rfl, by simp [Scanner.scans], rfl⟩
  | succ k ih =>
    obtain ⟨hr, hc, hd, hl, hp⟩ := ih (fun i hi => hok i (Nat.lt_succ_of_lt hi))
    have hk := hok k (Nat.lt_succ_self k)
    unfold Behaviour.nthNext at hk
    rw [scans_succ, Scan_of_running B _ hr]
    refine ⟨⟨hr.1, ?_, hr.2.2.1, hr.2.2.2⟩, hc, ?_, ?_, hp⟩
    · simp only [decoder.Next, hc, hd]
      exact hk
    · simp only [decoder.Next, hc, hd]
      rw [afterNexts_succ]
    · simp only [decoder.Next, hl, List.replicate_succ', List.append_assoc]

/-- One scan of a running scanner, in terms of the next answer of the decoder. -/
theorem Scan_after_scans (B : Behaviour δ ε ρ) (s : Scanner δ ε) (h : s.Running) (n : Nat)
    (hok : ∀ i, i < n → (B.nthNext s.ctx s.decoder.st i).2 = none) :
    ((s.scans B n).Scan B).2 = decide ((B.nthNext s.ctx s.decoder.st n).2 = none) ∧
      (s.scans B (n + 1)).next = (B.nthNext s.ctx s.decoder.st n).1 ∧
      (s.scans B (n + 1)).err = (B.nthNext s.ctx s.decoder.st n).2 ∧
      (s.scans B (n + 1)).closed = false ∧
      (s.scans B (n + 1)).ctx = s.ctx ∧
      (s.scans B (n + 1)).decoder.calls =
        s.decoder.calls ++ List.replicate (n + 1) Call.Next := by
  obtain ⟨hr, hc, hd, hl, _⟩ := scans_running B s h n hok
  rw [scans_succ, Scan_of_running B _ hr]
  simp only [decoder.Next, hc, hd, hl, Behaviour.nthNext, List.replicate_succ',
    List.append_assoc, hr.2.2.1, and_self]

theorem scans_startIfNeeded (B : Behaviour δ ε ρ) (s : Scanner δ ε) (n : Nat) :
    (s.startIfNeeded B).scans B (n + 1) = s.scans B (n + 1) := by
  show (((s.startIfNeeded B).Scan B).1).scans B n = ((s.Scan B).1).scans B n
  rw [Scan_startIfNeeded]

theorem Scan_scans_startIfNeeded (B : Behaviour δ ε ρ) (s : Scanner δ ε) (n : Nat) :
    (((s.startIfNeeded B).scans B n).Scan B) = ((s.scans B n).Scan B) := by
  cases n with
  | zero => exact Scan_startIfNeeded B s
  | succ k => rw [scans_startIfNeeded]

/-- The first statement of `Scan` on a fresh scanner whose decoder starts
without error and whose context is live gives a running scanner. -/
theorem startIfNeeded_New [Inhabited ε] (B : Behaviour δ ε ρ) (ctx : Option Context) (r : ρ)
    (procs : Int) (hctx : (Context.orBackground ctx).Err = none)
    (hstart : (B.Start (Context.orBackground ctx) procs
      (B.newDecoder (Context.orBackground ctx) r)).2 = none) :
    ((New B ctx r procs).startIfNeeded B).Running ∧
      ((New B ctx r procs).startIfNeeded B).ctx = Context.orBackground ctx ∧
      ((New B ctx r procs).startIfNeeded B).decoder.st =
        (B.Start (Context.orBackground ctx) procs
          (B.newDecoder (Context.orBackground ctx) r)).1 ∧
      ((New B ctx r procs).startIfNeeded B).decoder.calls = [Call.Start procs] := by
  simp [Scanner.startIfNeeded, New, Scanner.Running, decoder.Start, newDecoder, hctx, hstart]

theorem cancel_Err_of_cancelled (c : Context) (cause : GoError) (h : c.Err ≠ none) :
    c.cancel cause = c := by
  unfold Context.Err at h
  unfold Context.cancel
  cases hc : c.err with
  | none => exact absurd hc h
  | some e => rfl

theorem cancel_Err_ne_none (c : Context) (cause : GoError) : (c.cancel cause).Err ≠ none := by
  unfold Context.cancel Context.Err
  cases hc : c.err with
  | none => simp
  | some e => simp [hc]

theorem step_stopped (B : Behaviour δ ε ρ) (s : Scanner δ ε) (h : s.Stopped) (o : Op) :
    (s.step B o).Stopped ∧ (s.step B o).err = s.err ∧ (s.step B o).next = s.next ∧
      (s.step B o).closed = (s.closed || decide (o = Op.Close)) ∧
      (s.step B o).decoder.calls =
        s.decoder.calls ++ (if o = Op.Close then [Call.Close] else []) ∧
      (s.ctx.Err ≠ none → (s.step B o).ctx = s.ctx) ∧
      (o ≠ Op.Close → (s.step B o).decoder = s.decoder) := by
  cases o with
  | Scan =>
    have e : s.step B Op.Scan = s := by simp only [Scanner.step, Scan_of_stopped B s h]
    rw [e]
    exact ⟨h, rfl, rfl, by simp, by simp, fun _ => rfl, fun _ => rfl⟩
  | Close =>
    obtain ⟨h1, _⟩ := h
    simp [Scanner.step, Scanner.Close, Scanner.Stopped, decoder.Close, h1]
  | Cancel c =>
    obtain ⟨h1, h2⟩ := h
    refine ⟨⟨h1, ?_⟩, rfl, rfl, by simp [Scanner.step, Scanner.cancel], by simp [Scanner.step, Scanner.cancel],
      ?_, fun _ => rfl⟩
    · rcases h2 with h2 | h2 | _
      · exact Or.inl h2
      · exact Or.inr (Or.inl h2)
      · exact Or.inr (Or.inr (cancel_Err_ne_none _ _))
    · intro hc
      simp only [Scanner.step, Scanner.cancel, cancel_Err_of_cancelled _ _ hc]

/-- From a stopped scanner every run leaves the scanner stopped, keeps the
latched error and the current element, and calls the decoder only through
`Close`, once per `Close` operation. -/
theorem run_stopped (B : Behaviour δ ε ρ) (s : Scanner δ ε) (h : s.Stopped) (ops : List Op) :
    (s.run B ops).Stopped ∧ (s.run B ops).err = s.err ∧ (s.run B ops).next = s.next ∧
      (s.run B ops).closed = (s.closed || decide (Op.Close ∈ ops)) ∧
      (s.run B ops).decoder.calls =
        s.decoder.calls ++ List.replicate (List.count Op.Close ops) Call.Close ∧
      (s.ctx.Err ≠ none → (s.run B ops).ctx = s.ctx) ∧
      ((∀ o, o ∈ ops → o ≠ Op.Close) → (s.run B ops).decoder = s.decoder) := by
  induction ops generalizing s with
  | nil => exact ⟨h, rfl, rfl, by simp [Scanner.run], by simp [Scanner.run], fun _ => rfl,
      fun _ => rfl⟩
  | cons o os ih =>
    obtain ⟨g1, g2, g3, g4, g5, g6, g7⟩ := step_stopped B s h o
    obtain ⟨k1, k2, k3, k4, k5, k6, k7⟩ := ih (s.step B o) g1
    refine ⟨k1, k2.trans g2, k3.trans g3, ?_, ?_, ?_, ?_⟩
    · show ((s.step B o).run B os).closed = _
      rw [k4, g4]
      by_cases ho : o = Op.Close
      · simp [ho]
      · have : ¬ Op.Close = o := fun e => ho e.symm
        simp [ho, this]
    · show ((s.step B o).run B os).decoder.calls = _
      rw [k5, g5]
      by_cases ho : o = Op.Close
      · simp [ho, List.replicate_succ]
      · simp [ho, List.count_cons]
    · intro hc
      show ((s.step B o).run B os).ctx = _
      have := g6 hc
      rw [k6 (by rw [this]; exact hc), this]
    · intro hn
      show ((s.step B o).run B os).decoder = _
      rw [k7 (fun o' ho' => hn o' (List.mem_cons_of_mem _ ho')), g7 (hn o (List.mem_cons_self _ _))]

/-- The value of `Err()` after any run from a stopped scanner: it is the value
before the run, except that a stop for cancellation alone turns into the
closed cause once `Close` has been called. -/
theorem Err_run_stopped (B : Behaviour δ ε ρ) (s : Scanner δ ε) (h : s.Stopped)
    (ops : List Op) :
    (s.run B ops).Err =
      if s.err = none ∧ s.closed = false ∧ Op.Close ∈ ops then
        some GoError.ErrScannerClosed
      else s.Err := by
  obtain ⟨_, k2, _, k4, _, k6, _⟩ := run_stopped B s h ops
  unfold Scanner.Err
  rw [k2, k4]
  by_cases he : s.err = none
  · by_cases hc : s.closed = true
    · simp [he, hc]
    · have hx : s.ctx.Err ≠ none := by
        rcases h.2 with h2 | h2 | h2
        · exact absurd he h2
        · exact absurd h2 hc
        · exact h2
      by_cases hm : Op.Close ∈ ops
      · simp [he, hc, hm]
      · simp [he, hc, hm, k6 hx]
  · simp [he]

theorem scans_eq_run (B : Behaviour δ ε ρ) (s : Scanner δ ε) (n : Nat) :
    s.scans B n = s.run B (List.replicate n Op.Scan) := by
  induction n generalizing s with
  | zero => rfl
  | succ k ih =>
    show ((s.Scan B).1).scans B k = (s.step B Op.Scan).run B (List.replicate k Op.Scan)
    rw [ih]
    rfl

theorem scans_add (B : Behaviour δ ε ρ) (s : Scanner δ ε) (a b : Nat) :
    s.scans B (a + b) = (s.scans B a).scans B b := by
  induction a generalizing s with
  | zero => simp [Scanner.scans]
  | succ k ih =>
    rw [Nat.succ_add]
    show ((s.Scan B).1).scans B (k + b) = (((s.Scan B).1).scans B k).scans B b
    rw [ih]

/-- A `Scan` call made while the context is cancelled: it returns false, keeps
the current element and the context, and calls the decoder only to start it. -/
theorem Scan_of_cancelled (B : Behaviour δ ε ρ) (s : Scanner δ ε) (h : s.ctx.Err ≠ none) :
    (s.Scan B).2 = false ∧ (s.Scan B).1.next = s.next ∧ (s.Scan B).1.ctx = s.ctx ∧
      (s.Scan B).1.decoder.calls =
        s.decoder.calls ++ (if s.started = true then [] else [Call.Start s.procs]) := by
  unfold Scanner.Scan
  have hc : (s.startIfNeeded B).ctx = s.ctx := by
    unfold Scanner.startIfNeeded
    by_cases hs : s.started = true <;> simp [hs]
  have hn : (s.startIfNeeded B).next = s.next := by
    unfold Scanner.startIfNeeded
    by_cases hs : s.started = true <;> simp [hs]
  have hd : (s.startIfNeeded B).decoder.calls =
      s.decoder.calls ++ (if s.started = true then [] else [Call.Start s.procs]) := by
    unfold Scanner.startIfNeeded
    by_cases hs : s.started = true <;> simp [hs, decoder.Start]
  have hx : (s.startIfNeeded B).err ≠ none ∨ (s.startIfNeeded B).closed = true ∨
      (s.startIfNeeded B).ctx.Err ≠ none := Or.inr (Or.inr (by rw [hc]; exact h))
  simp only [if_pos hx]
  exact ⟨trivial, hn, hc, hd⟩

theorem count_Next_append_Start (l : List Call) (b : Bool) (n : Int) :
    List.count Call.Next (l ++ (if b = true then [] else [Call.Start n])) =
      List.count Call.Next l := by
  cases b <;> simp [List.count_cons]

/-- Once the context is cancelled, no run changes the context or the current
element, and no run calls `Next` on the decoder. -/
theorem run_cancelled (B : Behaviour δ ε ρ) (s : Scanner δ ε) (h : s.ctx.Err ≠ none)
    (ops : List Op) :
    (s.run B ops).ctx = s.ctx ∧ (s.run B ops).next = s.next ∧
      (s.run B ops).decoder.nextCalls = s.decoder.nextCalls := by
  induction ops generalizing s with
  | nil => exact ⟨rfl, rfl, rfl⟩
  | cons o os ih =>
    have key : (s.step B o).ctx = s.ctx ∧ (s.step B o).next = s.next ∧
        (s.step B o).decoder.nextCalls = s.decoder.nextCalls := by
      cases o with
      | Scan =>
        obtain ⟨_, h2, h3, h4⟩ := Scan_of_cancelled B s h
        refine ⟨h3, h2, ?_⟩
        show List.count Call.Next (s.Scan B).1.decoder.calls = _
        rw [h4, count_Next_append_Start]
        rfl
      | Close => simp [Scanner.step, Scanner.Close, decoder.Close, decoder.nextCalls,
          List.count_cons]
      | Cancel c =>
        refine ⟨?_, rfl, rfl⟩
        simp only [Scanner.step, Scanner.cancel, cancel_Err_of_cancelled _ _ h]
    obtain ⟨k1, k2, k3⟩ := ih (s.step B o) (by rw [key.1]; exact h)
    exact ⟨k1.trans key.1, k2.trans key.2.1, k3.trans key.2.2⟩

/-- In a stopped scanner `Err()` is nil exactly when `io.EOF` is latched. -/
theorem Err_eq_none_iff_of_stopped (s : Scanner δ ε) (h : s.Stopped) :
    s.Err = none ↔ s.err = some GoError.EOF := by
  unfold Scanner.Err
  by_cases he : s.err = some GoError.EOF
  · simp [he]
  · by_cases hn : s.err = none
    · by_cases hc : s.closed = true
      · simp [hn, hc]
      · rcases h.2 with h2 | h2 | h2
        · exact absurd hn h2
        · exact absurd h2 hc
        · simp [hn, hc, h2]
    · simp [he, hn]

theorem closes_calls (B : Behaviour δ ε ρ) (s : Scanner δ ε) (n : Nat) :
    (s.closes B n).decoder.calls = s.decoder.calls ++ List.replicate n Call.Close := by
  induction n generalizing s with
  | zero => simp [Scanner.closes]
  | succ k ih =>
    show (((s.Close B).1).closes B k).decoder.calls = _
    rw [ih]
    simp [Scanner.Close, decoder.Close, List.replicate_succ]

theorem closes_closed (B : Behaviour δ ε ρ) (s : Scanner δ ε) (n : Nat)
    (h : s.closed = true ∨ 0 < n) : (s.closes B n).closed = true := by
  induction n generalizing s with
  | zero =>
    rcases h with h | h
    · exact h
    · exact absurd h (Nat.lt_irrefl 0)
  | succ k ih => exact ih (s.Close B).1 (Or.inl rfl)

/-- A `Scan` call made while the context is cancelled does the start attempt
and nothing else. -/
theorem Scan_state_of_cancelled (B : Behaviour δ ε ρ) (s : Scanner δ ε)
    (h : s.ctx.Err ≠ none) : (s.Scan B).1 = s.startIfNeeded B := by
  have hc : (s.startIfNeeded B).ctx = s.ctx := by
    unfold Scanner.startIfNeeded
    by_cases hs : s.started = true <;> simp [hs]
  have hx : (s.startIfNeeded B).err ≠ none ∨ (s.startIfNeeded B).closed = true ∨
      (s.startIfNeeded B).ctx.Err ≠ none := Or.inr (Or.inr (by rw [hc]; exact h))
  unfold Scanner.Scan
  simp only [if_pos hx]

/-- The start attempt of a scanner that is not started: the error of `Start` is
latched and nothing else but the decoder and the started mark changes. -/
theorem startIfNeeded_of_not_started (B : Behaviour δ ε ρ) (s : Scanner δ ε)
    (h : s.started = false) :
    (s.startIfNeeded B).err = (B.Start s.ctx s.procs s.decoder.st).2 ∧
      (s.startIfNeeded B).closed = s.closed ∧ (s.startIfNeeded B).ctx = s.ctx ∧
      (s.startIfNeeded B).decoder.calls = s.decoder.calls ++ [Call.Start s.procs] := by
  simp [Scanner.startIfNeeded, h, decoder.Start]

/-- A run without `Scan` calls leaves the scanner unstarted if it was, keeps
the latched error and `procs`, closes the scanner exactly when it contains a
`Close`, and calls the decoder only through `Close`. -/
theorem run_without_Scan (B : Behaviour δ ε ρ) (s : Scanner δ ε) (ops : List Op)
    (hno : Op.Scan ∉ ops) :
    (s.run B ops).started = s.started ∧ (s.run B ops).err = s.err ∧
      (s.run B ops).procs = s.procs ∧
      (s.run B ops).closed = (s.closed || decide (Op.Close ∈ ops)) ∧
      (s.run B ops).decoder.calls =
        s.decoder.calls ++ List.replicate (List.count Op.Close ops) Call.Close := by
  induction ops generalizing s with
  | nil => simp [Scanner.run]
  | cons o os ih =>
    have hno2 : Op.Scan ∉ os := fun h => hno (List.mem_cons_of_mem _ h)
    obtain ⟨k1, k2, k3, k4, k5⟩ := ih (s.step B o) hno2
    show ((s.step B o).run B os).started = _ ∧ ((s.step B o).run B os).err = _ ∧
      ((s.step B o).run B os).procs = _ ∧ ((s.step B o).run B os).closed = _ ∧
      ((s.step B o).run B os).decoder.calls = _
    rw [k1, k2, k3, k4, k5]
    cases o with
    | Scan => exact absurd (List.mem_cons_self _ _) hno
    | Close =>
      simp [Scanner.step, Scanner.Close, decoder.Close, List.replicate_succ]
    | Cancel c =>
      simp [Scanner.step, Scanner.cancel, List.count_cons]

end Lemmas

/-! ## Clean scans -/

section Claims

variable {δ ε ρ : Type}

/-- C1: if `Start` succeeds and `Next` returns the records `rec 0, …, rec (N-1)`
and then `io.EOF`, with the context never cancelled and `Close` never called,
then each of the first `N` `Scan` calls on a scanner from `New` returns true
with `Element()` equal to the corresponding record, call `N+1` returns false,
and `Err()` is nil afterwards. -/
theorem C1_clean_scan [Inhabited ε] (B : Behaviour δ ε ρ) (ctx : Option Context) (r : ρ)
    (procs : Int) (N : Nat) (rec : Nat → ε) (v : ε)
    (hctx : (Context.orBackground ctx).Err = none)
    (hstart : (B.Start (Context.orBackground ctx) procs
      (B.newDecoder (Context.orBackground ctx) r)).2 = none)
    (hrec : ∀ i, i < N → B.nthNext (Context.orBackground ctx)
      (B.Start (Context.orBackground ctx) procs (B.newDecoder (Context.orBackground ctx) r)).1 i
        = (rec i, none))
    (heof : B.nthNext (Context.orBackground ctx)
      (B.Start (Context.orBackground ctx) procs (B.newDecoder (Context.orBackground ctx) r)).1 N
        = (v, some GoError.EOF)) :
    (∀ i, i < N →
      (((New B ctx r procs).scans B i).Scan B).2 = true ∧
        ((New B ctx r procs).scans B (i + 1)).Element = rec i) ∧
    (((New B ctx r procs).scans B N).Scan B).2 = false ∧
    ((New B ctx r procs).scans B (N + 1)).Err = none := by
  obtain ⟨hr, hc, hd, _⟩ := startIfNeeded_New B ctx r procs hctx hstart
  have hok : ∀ n, n ≤ N → ∀ i, i < n →
      (B.nthNext ((New B ctx r procs).startIfNeeded B).ctx
        ((New B ctx r procs).startIfNeeded B).decoder.st i).2 = none := by
    intro n hn i hi
    rw [hc, hd, hrec i (Nat.lt_of_lt_of_le hi hn)]
  refine ⟨?_, ?_, ?_⟩
  · intro i hi
    obtain ⟨h1, h2, _⟩ := Scan_after_scans B _ hr i (hok i (Nat.le_of_lt hi))
    rw [Scan_scans_startIfNeeded, hc, hd, hrec i hi] at h1
    rw [scans_startIfNeeded, hc, hd, hrec i hi] at h2
    exact ⟨by simpa using h1, h2⟩
  · obtain ⟨h1, _⟩ := Scan_after_scans B _ hr N (hok N (Nat.le_refl N))
    rw [Scan_scans_startIfNeeded, hc, hd, heof] at h1
    simpa using h1
  · obtain ⟨_, _, h3, _⟩ := Scan_after_scans B _ hr N (hok N (Nat.le_refl N))
    rw [scans_startIfNeeded, hc, hd, heof] at h3
    simp [Scanner.Err, h3]

/-- Witness for C1: a scripted decoder giving the records 7 and 8. -/
theorem C1_clean_scan_witness :
    (∀ i, i < 2 →
      (((New scripted none (Script.mk none [(7, none), (8, none)]) 1).scans scripted i).Scan
          scripted).2 = true ∧
        ((New scripted none (Script.mk none [(7, none), (8, none)]) 1).scans scripted
          (i + 1)).Element = [7, 8].getD i 0) ∧
    (((New scripted none (Script.mk none [(7, none), (8, none)]) 1).scans scripted 2).Scan
        scripted).2 = false ∧
    ((New scripted none (Script.mk none [(7, none), (8, none)]) 1).scans scripted 3).Err = none :=
  C1_clean_scan scripted none (Script.mk none [(7, none), (8, none)]) 1 2
    (fun i => [7, 8].getD i 0) 0 rfl rfl
    (by intro i hi; interval_cases i <;> rfl) rfl

/-! ## Terminal behaviour -/

/-- C2: once a `Scan` call has returned false (from any scanner state, so in
particular from every state reachable from `New`), after every run of further
`Scan` calls and cancellations of the context (no `Close`) a `Scan` call returns
false, `Err()` has the value it had right after the first false, and the decoder
has received no call at all since then, so neither `Start` nor `Next`. -/
theorem C2_false_is_terminal (B : Behaviour δ ε ρ) (s t : Scanner δ ε) (ops : List Op)
    (hfalse : s.Scan B = (t, false)) (hops : ∀ o, o ∈ ops → o ≠ Op.Close) :
    ((t.run B ops).Scan B).2 = false ∧
      (t.run B ops).Err = t.Err ∧
      ((t.run B ops).Scan B).1.Err = t.Err ∧
      (t.run B ops).decoder.calls = t.decoder.calls ∧
      ((t.run B ops).Scan B).1.decoder.calls = t.decoder.calls := by
  have ht : t.Stopped := by
    have := stopped_of_Scan_false B s (by rw [hfalse])
    rwa [hfalse] at this
  obtain ⟨k1, _, _, _, _, _, k7⟩ := run_stopped B t ht ops
  have hE : (t.run B ops).Err = t.Err := by
    rw [Err_run_stopped B t ht ops]
    have : ¬ Op.Close ∈ ops := fun hm => hops _ hm rfl
    simp [this]
  rw [Scan_of_stopped B _ k1]
  exact ⟨rfl, hE, hE, by rw [k7 hops], by rw [k7 hops]⟩

/-- Witness for C2: the decoder is exhausted at once; two more scans with a
cancellation in between. -/
theorem C2_false_is_terminal_witness :
    ((((New scripted none (Script.mk none []) 1).Scan scripted).1.run scripted
        [Op.Scan, Op.Cancel GoError.Canceled, Op.Scan]).Scan scripted).2 = false ∧
      (((New scripted none (Script.mk none []) 1).Scan scripted).1.run scripted
        [Op.Scan, Op.Cancel GoError.Canceled, Op.Scan]).Err =
        ((New scripted none (Script.mk none []) 1).Scan scripted).1.Err ∧
      ((((New scripted none (Script.mk none []) 1).Scan scripted).1.run scripted
        [Op.Scan, Op.Cancel GoError.Canceled, Op.Scan]).Scan scripted).1.Err =
        ((New scripted none (Script.mk none []) 1).Scan scripted).1.Err ∧
      (((New scripted none (Script.mk none []) 1).Scan scripted).1.run scripted
        [Op.Scan, Op.Cancel GoError.Canceled, Op.Scan]).decoder.calls =
        ((New scripted none (Script.mk none []) 1).Scan scripted).1.decoder.calls ∧
      ((((New scripted none (Script.mk none []) 1).Scan scripted).1.run scripted
        [Op.Scan, Op.Cancel GoError.Canceled, Op.Scan]).Scan scripted).1.decoder.calls =
        ((New scripted none (Script.mk none []) 1).Scan scripted).1.decoder.calls :=
  C2_false_is_terminal scripted (New scripted none (Script.mk none []) 1)
    ((New scripted none (Script.mk none []) 1).Scan scripted).1
    [Op.Scan, Op.Cancel GoError.Canceled, Op.Scan] rfl (by decide)

/-- C3, counterexample: one record is scanned, the context is cancelled, and
the next `Scan` returns false with `Err()` the cancellation error; a `Close`
call then changes `Err()` to `osm.ErrScannerClosed`. -/
theorem C3_counterexample :
    (((New scripted none (Script.mk none [(7, none), (8, none)]) 1).run scripted
        [Op.Scan, Op.Cancel GoError.Canceled]).Scan scripted).2 = false ∧
      (((New scripted none (Script.mk none [(7, none), (8, none)]) 1).run scripted
        [Op.Scan, Op.Cancel GoError.Canceled]).Scan scripted).1.Err = some GoError.Canceled ∧
      ((((New scripted none (Script.mk none [(7, none), (8, none)]) 1).run scripted
        [Op.Scan, Op.Cancel GoError.Canceled]).Scan scripted).1.run scripted [Op.Close]).Err =
        some GoError.ErrScannerClosed := by
  refine ⟨rfl, rfl, rfl⟩

/-- C3, amended: once a `Scan` call has returned false, after every run of
`Scan` calls, `Close` calls and cancellations a `Scan` call returns false, and
`Err()` has the value it had right after the first false, except that when the
scanner stopped for cancellation alone (no latched error, not closed) `Err()` is
`osm.ErrScannerClosed` once `Close` has been called. -/
theorem C3_sticky_up_to_close (B : Behaviour δ ε ρ) (s t : Scanner δ ε) (ops : List Op)
    (hfalse : s.Scan B = (t, false)) :
    ((t.run B ops).Scan B).2 = false ∧
      (t.run B ops).Err =
        if t.err = none ∧ t.closed = false ∧ Op.Close ∈ ops then
          some GoError.ErrScannerClosed
        else t.Err := by
  have ht : t.Stopped := by
    have := stopped_of_Scan_false B s (by rw [hfalse])
    rwa [hfalse] at this
  obtain ⟨k1, _⟩ := run_stopped B t ht ops
  rw [Scan_of_stopped B _ k1]
  exact ⟨rfl, Err_run_stopped B t ht ops⟩

/-- Witness for C3 (amended): a decoder error is latched, then the scanner is
closed and cancelled and scanned again. -/
theorem C3_sticky_up_to_close_witness :
    ((((New scripted none (Script.mk none [(7, some (GoError.other 5))]) 1).Scan scripted).1.run
        scripted [Op.Close, Op.Cancel GoError.Canceled, Op.Scan]).Scan scripted).2 = false ∧
      (((New scripted none (Script.mk none [(7, some (GoError.other 5))]) 1).Scan scripted).1.run
        scripted [Op.Close, Op.Cancel GoError.Canceled, Op.Scan]).Err =
        if ((New scripted none (Script.mk none [(7, some (GoError.other 5))]) 1).Scan
              scripted).1.err = none ∧
            ((New scripted none (Script.mk none [(7, some (GoError.other 5))]) 1).Scan
              scripted).1.closed = false ∧
            Op.Close ∈ [Op.Close, Op.Cancel GoError.Canceled, Op.Scan] then
          some GoError.ErrScannerClosed
        else ((New scripted none (Script.mk none [(7, some (GoError.other 5))]) 1).Scan
          scripted).1.Err :=
  C3_sticky_up_to_close scripted (New scripted none (Script.mk none [(7, some (GoError.other 5))]) 1)
    ((New scripted none (Script.mk none [(7, some (GoError.other 5))]) 1).Scan scripted).1
    [Op.Close, Op.Cancel GoError.Canceled, Op.Scan] rfl

/-! ## Decoder failures -/

/-- C4: for every `k ≥ 1` and every error `e` other than `io.EOF`, if `Start`
succeeds, the first `k-1` calls of `Next` return records and call `k` returns
`e`, on a scanner from `New` whose context is live and which is never closed,
then `Scan` returns true `k-1` times and then false, `Err()` is `e`, and every
further `Scan` call returns false with `Err()` still `e`. -/
theorem C4_decoder_error (B : Behaviour δ ε ρ) [Inhabited ε] (ctx : Option Context) (r : ρ)
    (procs : Int) (k : Nat) (rec : Nat → ε) (v : ε) (e : GoError) (m : Nat)
    (hk : 1 ≤ k) (he : e ≠ GoError.EOF)
    (hctx : (Context.orBackground ctx).Err = none)
    (hstart : (B.Start (Context.orBackground ctx) procs
      (B.newDecoder (Context.orBackground ctx) r)).2 = none)
    (hrec : ∀ i, i < k - 1 → B.nthNext (Context.orBackground ctx)
      (B.Start (Context.orBackground ctx) procs (B.newDecoder (Context.orBackground ctx) r)).1 i
        = (rec i, none))
    (herr : B.nthNext (Context.orBackground ctx)
      (B.Start (Context.orBackground ctx) procs (B.newDecoder (Context.orBackground ctx) r)).1
        (k - 1) = (v, some e)) :
    (∀ i, i < k - 1 → (((New B ctx r procs).scans B i).Scan B).2 = true) ∧
      (((New B ctx r procs).scans B (k - 1)).Scan B).2 = false ∧
      ((New B ctx r procs).scans B k).Err = some e ∧
      (((New B ctx r procs).scans B (k + m)).Scan B).2 = false ∧
      ((New B ctx r procs).scans B (k + m + 1)).Err = some e := by
  obtain ⟨n, rfl⟩ : ∃ n, k = n + 1 := ⟨k - 1, by omega⟩
  simp only [Nat.add_sub_cancel] at hrec herr ⊢
  obtain ⟨hr, hc, hd, _⟩ := startIfNeeded_New B ctx r procs hctx hstart
  have hok : ∀ j, j ≤ n → ∀ i, i < j →
      (B.nthNext ((New B ctx r procs).startIfNeeded B).ctx
        ((New B ctx r procs).startIfNeeded B).decoder.st i).2 = none := by
    intro j hj i hi
    rw [hc, hd, hrec i (Nat.lt_of_lt_of_le hi hj)]
  obtain ⟨h1, _, h3, _⟩ := Scan_after_scans B _ hr n (hok n (Nat.le_refl n))
  rw [Scan_scans_startIfNeeded, hc, hd, herr] at h1
  rw [scans_startIfNeeded, hc, hd, herr] at h3
  have hfalse : (((New B ctx r procs).scans B n).Scan B).2 = false := by simpa using h1
  have hst : ((New B ctx r procs).scans B (n + 1)).Stopped := by
    rw [scans_succ]
    exact stopped_of_Scan_false B _ hfalse
  have hErr : ∀ t : Scanner δ ε, t.err = some e → t.Err = some e := by
    intro t ht
    simp [Scanner.Err, ht, he]
  refine ⟨?_, hfalse, hErr _ h3, ?_, ?_⟩
  · intro i hi
    obtain ⟨g1, _⟩ := Scan_after_scans B _ hr i (hok i (Nat.le_of_lt hi))
    rw [Scan_scans_startIfNeeded, hc, hd, hrec i hi] at g1
    simpa using g1
  · rw [scans_add, scans_eq_run B _ m]
    rw [Scan_of_stopped B _ (run_stopped B _ hst _).1]
  · rw [Nat.add_assoc (n + 1) m 1, scans_add, scans_eq_run B _ (m + 1)]
    exact hErr _ ((run_stopped B _ hst _).2.1.trans h3)

/-- Witness for C4: the scenario of the specification, where the third `Next`
call fails, followed by two more scans. -/
theorem C4_decoder_error_witness :
    (∀ i, i < 3 - 1 →
      (((New scripted none (Script.mk none [(7, none), (8, none), (0, some (GoError.other 5))])
        2).scans scripted i).Scan scripted).2 = true) ∧
      (((New scripted none (Script.mk none [(7, none), (8, none), (0, some (GoError.other 5))])
        2).scans scripted (3 - 1)).Scan scripted).2 = false ∧
      ((New scripted none (Script.mk none [(7, none), (8, none), (0, some (GoError.other 5))])
        2).scans scripted 3).Err = some (GoError.other 5) ∧
      (((New scripted none (Script.mk none [(7, none), (8, none), (0, some (GoError.other 5))])
        2).scans scripted (3 + 1)).Scan scripted).2 = false ∧
      ((New scripted none (Script.mk none [(7, none), (8, none), (0, some (GoError.other 5))])
        2).scans scripted (3 + 1 + 1)).Err = some (GoError.other 5) :=
  C4_decoder_error scripted none
    (Script.mk none [(7, none), (8, none), (0, some (GoError.other 5))]) 2 3
    (fun i => [7, 8].getD i 0) 0 (GoError.other 5) 1 (by decide) (by decide) rfl rfl
    (by intro i hi; interval_cases i <;> rfl) rfl

/-- C5: if `Start` returns an error `e` on the first `Scan` call, that call
returns false after calling only `Start` on the decoder and latches `e`; after
every later run of `Scan` calls, `Close` calls and cancellations the decoder has
still received no further `Next` call, and `Err()` is `e`, or nil when `e` is
`io.EOF`. -/
theorem C5_start_failure (B : Behaviour δ ε ρ) (s : Scanner δ ε) (e : GoError) (ops : List Op)
    (hfirst : s.started = false)
    (hstart : (B.Start s.ctx s.procs s.decoder.st).2 = some e) :
    (s.Scan B).2 = false ∧
      (s.Scan B).1.decoder.calls = s.decoder.calls ++ [Call.Start s.procs] ∧
      (s.Scan B).1.err = some e ∧
      (s.Scan B).1.Err = (if e = GoError.EOF then none else some e) ∧
      ((s.Scan B).1.run B ops).decoder.nextCalls = s.decoder.nextCalls ∧
      ((s.Scan B).1.run B ops).Err = (if e = GoError.EOF then none else some e) := by
  have hS : s.Scan B =
      ({ s with started := true
                decoder := (s.decoder.Start B s.ctx s.procs).1
                err := some e }, false) := by
    simp [Scanner.Scan, Scanner.startIfNeeded, hfirst, decoder.Start, hstart]
  have hst : (s.Scan B).1.Stopped := stopped_of_Scan_false B s (by rw [hS])
  have hErr : ∀ t : Scanner δ ε, t.err = some e →
      t.Err = (if e = GoError.EOF then none else some e) := by
    intro t ht
    by_cases h : e = GoError.EOF <;> simp [Scanner.Err, ht, h]
  obtain ⟨_, k2, _, _, k5, _⟩ := run_stopped B _ hst ops
  have herr : (s.Scan B).1.err = some e := by rw [hS]
  have hcalls : (s.Scan B).1.decoder.calls = s.decoder.calls ++ [Call.Start s.procs] := by
    rw [hS]
    rfl
  refine ⟨by rw [hS], hcalls, herr, hErr _ herr, ?_, hErr _ (k2.trans herr)⟩
  unfold decoder.nextCalls
  rw [k5, hcalls]
  simp [List.count_cons, List.count_replicate]

/-- Witness for C5: `Start` fails on a malformed header; the scanner is then
scanned again, closed and scanned once more. -/
theorem C5_start_failure_witness :
    ((New scripted none (Script.mk (some (GoError.other 3)) [(7, none)]) 1).Scan scripted).2
        = false ∧
      ((New scripted none (Script.mk (some (GoError.other 3)) [(7, none)]) 1).Scan
        scripted).1.decoder.calls =
        (New scripted none (Script.mk (some (GoError.other 3)) [(7, none)]) 1).decoder.calls ++
          [Call.Start (New scripted none (Script.mk (some (GoError.other 3)) [(7, none)]) 1).procs] ∧
      ((New scripted none (Script.mk (some (GoError.other 3)) [(7, none)]) 1).Scan
        scripted).1.err = some (GoError.other 3) ∧
      ((New scripted none (Script.mk (some (GoError.other 3)) [(7, none)]) 1).Scan
        scripted).1.Err =
        (if GoError.other 3 = GoError.EOF then none else some (GoError.other 3)) ∧
      (((New scripted none (Script.mk (some (GoError.other 3)) [(7, none)]) 1).Scan
        scripted).1.run scripted [Op.Scan, Op.Close, Op.Scan]).decoder.nextCalls =
        (New scripted none (Script.mk (some (GoError.other 3)) [(7, none)]) 1).decoder.nextCalls ∧
      (((New scripted none (Script.mk (some (GoError.other 3)) [(7, none)]) 1).Scan
        scripted).1.run scripted [Op.Scan, Op.Close, Op.Scan]).Err =
        (if GoError.other 3 = GoError.EOF then none else some (GoError.other 3)) :=
  C5_start_failure scripted (New scripted none (Script.mk (some (GoError.other 3)) [(7, none)]) 1)
    (GoError.other 3) [Op.Scan, Op.Close, Op.Scan] rfl rfl

/-! ## Cancellation -/

/-- C6: in every scanner state, a `Scan` call made while the context is
cancelled returns false, makes no `Next` call on the decoder (its only possible
decoder call is the `Start` of a scanner not yet started) and leaves `Element()`
unchanged; the same holds after every further run, so no record is delivered
once the context is cancelled. -/
theorem C6_cancelled_scan (B : Behaviour δ ε ρ) (s : Scanner δ ε) (ops : List Op)
    (hc : s.ctx.Err ≠ none) :
    (s.Scan B).2 = false ∧
      (s.Scan B).1.decoder.nextCalls = s.decoder.nextCalls ∧
      (s.Scan B).1.decoder.calls =
        s.decoder.calls ++ (if s.started = true then [] else [Call.Start s.procs]) ∧
      (s.Scan B).1.Element = s.Element ∧
      ((s.run B ops).Scan B).2 = false ∧
      ((s.run B ops).Scan B).1.decoder.nextCalls = s.decoder.nextCalls ∧
      ((s.run B ops).Scan B).1.Element = s.Element := by
  obtain ⟨h1, h2, _, h4⟩ := Scan_of_cancelled B s hc
  obtain ⟨k1, k2, k3⟩ := run_cancelled B s hc ops
  have hc' : (s.run B ops).ctx.Err ≠ none := by rw [k1]; exact hc
  obtain ⟨g1, g2, _, g4⟩ := Scan_of_cancelled B _ hc'
  refine ⟨h1, ?_, h4, h2, g1, ?_, g2.trans k2⟩
  · unfold decoder.nextCalls
    rw [h4, count_Next_append_Start]
  · rw [← k3]
    unfold decoder.nextCalls
    rw [g4, count_Next_append_Start]

/-- Witness for C6: after one record the context is cancelled although the
decoder holds another record; the element stays the first record. -/
theorem C6_cancelled_scan_witness :
    (scripted.Next (Context.mk (some GoError.Canceled))
        ((New scripted none (Script.mk none [(7, none), (8, none)]) 1).run scripted
          [Op.Scan, Op.Cancel GoError.Canceled]).decoder.st).2 = (8, none) ∧
      (((New scripted none (Script.mk none [(7, none), (8, none)]) 1).run scripted
        [Op.Scan, Op.Cancel GoError.Canceled]).Scan scripted).2 = false ∧
      (((New scripted none (Script.mk none [(7, none), (8, none)]) 1).run scripted
        [Op.Scan, Op.Cancel GoError.Canceled]).Scan scripted).1.Element = 7 :=
  have h := C6_cancelled_scan scripted
    ((New scripted none (Script.mk none [(7, none), (8, none)]) 1).run scripted
      [Op.Scan, Op.Cancel GoError.Canceled]) [] (by decide)
  ⟨rfl, h.1, h.2.2.2.1⟩

/-- C7, counterexample: the context is cancelled before the first `Scan` call
and the decoder fails to start. The `Scan` call returns false, but it has
invoked `Start` once, and `Err()` is the error of `Start`, not the error of the
context. -/
theorem C7_counterexample :
    ((New scripted (some (Context.mk (some GoError.Canceled)))
        (Script.mk (some (GoError.other 3)) []) 1).Scan scripted).2 = false ∧
      ((New scripted (some (Context.mk (some GoError.Canceled)))
        (Script.mk (some (GoError.other 3)) []) 1).Scan scripted).1.decoder.startCalls = 1 ∧
      ((New scripted (some (Context.mk (some GoError.Canceled)))
        (Script.mk (some (GoError.other 3)) []) 1).Scan scripted).1.Err
          = some (GoError.other 3) ∧
      ((New scripted (some (Context.mk (some GoError.Canceled)))
        (Script.mk (some (GoError.other 3)) []) 1).Scan scripted).1.ctx.Err
          = some GoError.Canceled := by
  refine ⟨rfl, rfl, rfl, rfl⟩

/-- C7, amended: take a scanner returned by `New` on which no `Scan` call has
been made yet (only `Close` calls and cancellations, in any number and order)
and whose context is cancelled. Its first `Scan` call returns false after
invoking `Start` on the decoder exactly once, with `procs`, and `Next` never.
`Err()` then reports the cancellation error of the context when `Start` returned
no error and `Close` has not been called; it reports `osm.ErrScannerClosed` when
`Start` returned no error and `Close` has been called, nil when `Start` returned
`io.EOF`, and the error of `Start` otherwise. If the context is cancelled after
the scanner has started, the next `Scan` call returns false without any call on
the decoder. -/
theorem C7_cancelled_scan_starts [Inhabited ε] (B : Behaviour δ ε ρ) (ctx : Option Context)
    (r : ρ) (procs : Int) (pre : List Op) (cause : GoError) (s : Scanner δ ε)
    (hpre : Op.Scan ∉ pre)
    (hctx : ((New B ctx r procs).run B pre).ctx.Err ≠ none)
    (hs : s.started = true) :
    (((New B ctx r procs).run B pre).Scan B).2 = false ∧
      (((New B ctx r procs).run B pre).Scan B).1.decoder.calls =
        ((New B ctx r procs).run B pre).decoder.calls ++ [Call.Start procs] ∧
      (((New B ctx r procs).run B pre).Scan B).1.decoder.startCalls = 1 ∧
      (((New B ctx r procs).run B pre).Scan B).1.decoder.nextCalls = 0 ∧
      (((New B ctx r procs).run B pre).Scan B).1.Err =
        (match (B.Start ((New B ctx r procs).run B pre).ctx procs
            ((New B ctx r procs).run B pre).decoder.st).2 with
          | none =>
            if Op.Close ∈ pre then some GoError.ErrScannerClosed
            else ((New B ctx r procs).run B pre).ctx.Err
          | some GoError.EOF => none
          | some e => some e) ∧
      ((s.cancel cause).Scan B).2 = false ∧
      ((s.cancel cause).Scan B).1.decoder = s.decoder := by
  obtain ⟨k1, _, k3, k4, k5⟩ := run_without_Scan B (New B ctx r procs) pre hpre
  have hst : ((New B ctx r procs).run B pre).started = false := k1
  have hp : ((New B ctx r procs).run B pre).procs = procs := k3
  have hcl : ((New B ctx r procs).run B pre).closed = decide (Op.Close ∈ pre) := by
    rw [k4]
    simp [New]
  have hlog : ((New B ctx r procs).run B pre).decoder.calls =
      List.replicate (List.count Op.Close pre) Call.Close := by
    rw [k5]
    simp [New, newDecoder]
  obtain ⟨g1, g2, g3, g4⟩ := startIfNeeded_of_not_started B _ hst
  rw [hp] at g1 g4
  have hy := cancel_Err_ne_none s.ctx cause
  have hstop : (s.cancel cause).Stopped := ⟨hs, Or.inr (Or.inr hy)⟩
  refine ⟨(Scan_of_cancelled B _ hctx).1, ?_, ?_, ?_, ?_, ?_, ?_⟩
  · rw [Scan_state_of_cancelled B _ hctx, g4]
  · unfold decoder.startCalls
    rw [Scan_state_of_cancelled B _ hctx, g4, hlog, List.filter_append]
    have : List.filter Call.isStart (List.replicate (List.count Op.Close pre) Call.Close) = [] := by
      rw [List.filter_eq_nil_iff]
      intro a ha
      rw [(List.mem_replicate.mp ha).2]
      simp [Call.isStart]
    rw [this]
    simp [Call.isStart]
  · unfold decoder.nextCalls
    rw [Scan_state_of_cancelled B _ hctx, g4, hlog, List.count_append, List.count_replicate]
    simp [List.count_cons]
  · rw [Scan_state_of_cancelled B _ hctx]
    unfold Scanner.Err
    rw [g1, g2, g3, hcl]
    cases hB : (B.Start ((New B ctx r procs).run B pre).ctx procs
        ((New B ctx r procs).run B pre).decoder.st).2 with
    | none => by_cases hm : Op.Close ∈ pre <;> simp [hm]
    | some e => cases e <;> simp
  · rw [Scan_of_stopped B _ hstop]
  · rw [Scan_of_stopped B _ hstop]
    rfl

/-- Witness for C7 (amended): a fresh scanner closed and then cancelled before
its first scan, and a scanner cancelled after delivering a record. -/
theorem C7_cancelled_scan_starts_witness :
    (((New scripted none (Script.mk none [(7, none)]) 1).run scripted
        [Op.Close, Op.Cancel GoError.Canceled]).Scan scripted).2 = false ∧
      (((New scripted none (Script.mk none [(7, none)]) 1).run scripted
        [Op.Close, Op.Cancel GoError.Canceled]).Scan scripted).1.decoder.startCalls = 1 ∧
      (((New scripted none (Script.mk none [(7, none)]) 1).run scripted
        [Op.Close, Op.Cancel GoError.Canceled]).Scan scripted).1.decoder.nextCalls = 0 ∧
      (((New scripted none (Script.mk none [(7, none)]) 1).run scripted
        [Op.Close, Op.Cancel GoError.Canceled]).Scan scripted).1.Err =
          some GoError.ErrScannerClosed ∧
      ((((New scripted none (Script.mk none [(7, none), (8, none)]) 1).Scan scripted).1.cancel
        GoError.Canceled).Scan scripted).2 = false ∧
      ((((New scripted none (Script.mk none [(7, none), (8, none)]) 1).Scan scripted).1.cancel
        GoError.Canceled).Scan scripted).1.decoder =
        ((New scripted none (Script.mk none [(7, none), (8, none)]) 1).Scan scripted).1.decoder :=
  have h := C7_cancelled_scan_starts scripted none (Script.mk none [(7, none)]) 1
    [Op.Close, Op.Cancel GoError.Canceled] GoError.Canceled
    ((New scripted none (Script.mk none [(7, none), (8, none)]) 1).Scan scripted).1
    (by decide) (by decide) rfl
  ⟨h.1, h.2.2.1, h.2.2.2.1, h.2.2.2.2.1, h.2.2.2.2.2.1, h.2.2.2.2.2.2⟩

/-! ## Closing -/

/-- C8, counterexample: the scanner is closed before any `Scan` call and the
decoder then fails to start; the first `Scan` call returns false but `Err()` is
the error of `Start`, not `osm.ErrScannerClosed`. -/
theorem C8_counterexample :
    ((((New scripted none (Script.mk (some (GoError.other 3)) []) 1).Close scripted).1.Scan
        scripted).2 = false) ∧
      (((New scripted none (Script.mk (some (GoError.other 3)) []) 1).Close scripted).1.Scan
        scripted).1.Err = some (GoError.other 3) := by
  refine ⟨rfl, rfl⟩

/-- C8, amended: if `Close` is called on a scanner returned by `New` before any
`Scan` call, the first `Scan` call returns false, and `Err()` afterwards is
`osm.ErrScannerClosed` when the `Start` call made by that `Scan` returned no
error, nil when it returned `io.EOF`, and the error of `Start` otherwise. -/
theorem C8_close_before_scan [Inhabited ε] (B : Behaviour δ ε ρ) (ctx : Option Context)
    (r : ρ) (procs : Int) :
    ((((New B ctx r procs).Close B).1).Scan B).2 = false ∧
      ((((New B ctx r procs).Close B).1).Scan B).1.Err =
        (match (B.Start (Context.orBackground ctx) procs
            (B.Close (Context.orBackground ctx)
              (B.newDecoder (Context.orBackground ctx) r)).1).2 with
          | none => some GoError.ErrScannerClosed
          | some GoError.EOF => none
          | some e => some e) := by
  constructor
  · simp [Scanner.Scan, Scanner.startIfNeeded, New, Scanner.Close]
  · simp only [Scanner.Scan, Scanner.startIfNeeded, New, Scanner.Close, decoder.Start,
      decoder.Close, newDecoder, Bool.not_false, if_true, or_true, true_or, Scanner.Err]
    cases hB : (B.Start (Context.orBackground ctx) procs
        (B.Close (Context.orBackground ctx) (B.newDecoder (Context.orBackground ctx) r)).1).2 with
    | none => simp
    | some e => cases e <;> simp

/-- C9, counterexample: two `Close` calls on a scanner invoke `Close` on the
decoder twice. -/
theorem C9_counterexample :
    ((New scripted none (Script.mk none [(7, none)]) 1).closes scripted 2).decoder.closeCalls
      = 2 := by
  rfl

/-- C9, amended: calling `Close` `n` times on a scanner invokes `Close` on the
decoder exactly `n` times, once per call, and nothing else on the decoder; the
scanner is closed after the first call and stays closed. -/
theorem C9_close_calls_decoder_each_time (B : Behaviour δ ε ρ) (s : Scanner δ ε) (n : Nat) :
    (s.closes B n).decoder.calls = s.decoder.calls ++ List.replicate n Call.Close ∧
      (s.closes B n).decoder.closeCalls = s.decoder.closeCalls + n ∧
      (s.closes B (n + 1)).closed = true := by
  refine ⟨closes_calls B s n, ?_, closes_closed B s (n + 1) (Or.inr (Nat.succ_pos n))⟩
  unfold decoder.closeCalls
  rw [closes_calls, List.count_append, List.count_replicate]
  simp

/-! ## Reading the outcome -/

/-- C10: once a `Scan` call has returned false, in every state reached
afterwards (by `Close` calls, cancellations, and `Scan` calls, which all return
false) `Err()` is nil if and only if the latched error is `io.EOF`; in every
other such state `Err()` is non-nil. -/
theorem C10_nil_iff_eof (B : Behaviour δ ε ρ) (s t : Scanner δ ε) (ops : List Op)
    (hfalse : s.Scan B = (t, false)) :
    ((t.run B ops).Err = none ↔ (t.run B ops).err = some GoError.EOF) ∧
      ((t.run B ops).err ≠ some GoError.EOF → (t.run B ops).Err ≠ none) := by
  have ht : t.Stopped := by
    have := stopped_of_Scan_false B s (by rw [hfalse])
    rwa [hfalse] at this
  have hiff := Err_eq_none_iff_of_stopped _ (run_stopped B t ht ops).1
  exact ⟨hiff, fun hne h => hne (hiff.mp h)⟩

/-- Witness for C10: a clean end of input, then `Close` and a cancellation. -/
theorem C10_nil_iff_eof_witness :
    ((((New scripted none (Script.mk none []) 1).Scan scripted).1.run scripted
        [Op.Close, Op.Cancel GoError.Canceled]).Err = none ↔
      (((New scripted none (Script.mk none []) 1).Scan scripted).1.run scripted
        [Op.Close, Op.Cancel GoError.Canceled]).err = some GoError.EOF) ∧
      ((((New scripted none (Script.mk none []) 1).Scan scripted).1.run scripted
        [Op.Close, Op.Cancel GoError.Canceled]).err ≠ some GoError.EOF →
      (((New scripted none (Script.mk none []) 1).Scan scripted).1.run scripted
        [Op.Close, Op.Cancel GoError.Canceled]).Err ≠ none) :=
  C10_nil_iff_eof scripted (New scripted none (Script.mk none []) 1)
    ((New scripted none (Script.mk none []) 1).Scan scripted).1
    [Op.Close, Op.Cancel GoError.Canceled] rfl

end Claims

/-! ## Further facts about `Scan` and runs -/

section MoreLemmas

variable {δ ε ρ : Type}

/-- The method `Scan` in one piece: after the start attempt, either one pull
from the decoder or nothing. -/
theorem Scan_eq (B : Behaviour δ ε ρ) (s : Scanner δ ε) :
    s.Scan B =
      if (s.startIfNeeded B).err = none ∧ (s.startIfNeeded B).closed = false ∧
          (s.startIfNeeded B).ctx.Err = none then
        ({ (s.startIfNeeded B) with
            decoder := ((s.startIfNeeded B).decoder.Next B (s.startIfNeeded B).ctx).1
            next := (B.Next (s.startIfNeeded B).ctx (s.startIfNeeded B).decoder.st).2.1
            err := (B.Next (s.startIfNeeded B).ctx (s.startIfNeeded B).decoder.st).2.2 },
          decide ((B.Next (s.startIfNeeded B).ctx (s.startIfNeeded B).decoder.st).2.2 = none))
      else (s.startIfNeeded B, false) := by
  by_cases hc : (s.startIfNeeded B).err = none ∧ (s.startIfNeeded B).closed = false ∧
      (s.startIfNeeded B).ctx.Err = none
  · rw [if_pos hc, ← Scan_startIfNeeded]
    exact Scan_of_running B _ ⟨startIfNeeded_started B s, hc⟩
  · rw [if_neg hc, ← Scan_startIfNeeded]
    refine Scan_of_stopped B _ ⟨startIfNeeded_started B s, ?_⟩
    by_cases h1 : (s.startIfNeeded B).err = none
    · by_cases h2 : (s.startIfNeeded B).closed = true
      · exact Or.inr (Or.inl h2)
      · by_cases h3 : (s.startIfNeeded B).ctx.Err = none
        · exact absurd ⟨h1, by simpa using h2, h3⟩ hc
        · exact Or.inr (Or.inr h3)
    · exact Or.inl h1

theorem startIfNeeded_fields (B : Behaviour δ ε ρ) (s : Scanner δ ε) :
    (s.startIfNeeded B).ctx = s.ctx ∧ (s.startIfNeeded B).closed = s.closed ∧
      (s.startIfNeeded B).procs = s.procs ∧ (s.startIfNeeded B).next = s.next ∧
      (s.startIfNeeded B).decoder.calls =
        s.decoder.calls ++ (if s.started = true then [] else [Call.Start s.procs]) := by
  unfold Scanner.startIfNeeded
  by_cases hs : s.started = true <;> simp [hs, decoder.Start]

/-- The decoder calls made by one `Scan` call: a `Start` when the scanner was
not started, then a `Next` when nothing stops the scan. -/
theorem Scan_calls (B : Behaviour δ ε ρ) (s : Scanner δ ε) :
    (s.Scan B).1.decoder.calls =
      s.decoder.calls ++ (if s.started = true then [] else [Call.Start s.procs]) ++
        (if (s.startIfNeeded B).err = none ∧ (s.startIfNeeded B).closed = false ∧
            (s.startIfNeeded B).ctx.Err = none then [Call.Next] else []) ∧
      (s.Scan B).1.started = true ∧ (s.Scan B).1.procs = s.procs := by
  obtain ⟨_, _, hp, _, hd⟩ := startIfNeeded_fields B s
  have hs := startIfNeeded_started B s
  rw [Scan_eq]
  by_cases hc : (s.startIfNeeded B).err = none ∧ (s.startIfNeeded B).closed = false ∧
      (s.startIfNeeded B).ctx.Err = none
  · simp only [if_pos hc, decoder.Next, hd]
    exact ⟨trivial, hs, hp⟩
  · simp only [if_neg hc, hd, List.append_nil]
    exact ⟨trivial, hs, hp⟩

theorem step_start (B : Behaviour δ ε ρ) (s : Scanner δ ε) (o : Op) :
    (s.step B o).procs = s.procs ∧
      (s.step B o).started = (s.started || decide (o = Op.Scan)) ∧
      (s.step B o).decoder.calls.filter Call.isStart =
        s.decoder.calls.filter Call.isStart ++
          (if s.started = false ∧ o = Op.Scan then [Call.Start s.procs] else []) := by
  cases o with
  | Scan =>
    obtain ⟨h1, h2, h3⟩ := Scan_calls B s
    refine ⟨h3, by simp [Scanner.step, h2], ?_⟩
    show (s.Scan B).1.decoder.calls.filter Call.isStart = _
    rw [h1, List.filter_append, List.filter_append]
    have hN : List.filter Call.isStart
        (if (s.startIfNeeded B).err = none ∧ (s.startIfNeeded B).closed = false ∧
            (s.startIfNeeded B).ctx.Err = none then [Call.Next] else []) = [] := by
      split <;> simp [Call.isStart]
    rw [hN, List.append_nil]
    cases hs : s.started <;> simp [Call.isStart]
  | Close =>
    simp [Scanner.step, Scanner.Close, decoder.Close, List.filter_append, Call.isStart]
  | Cancel c =>
    simp [Scanner.step, Scanner.cancel]

/-- The `Start` calls in the log of a scanner that has logged one `Start` call
exactly when it is started: after any run there is one, with argument `procs`,
exactly when the scanner was started or the run contains a `Scan`. -/
theorem run_startCalls (B : Behaviour δ ε ρ) (s : Scanner δ ε) (ops : List Op)
    (hinv : s.decoder.calls.filter Call.isStart =
      if s.started = true then [Call.Start s.procs] else []) :
    (s.run B ops).decoder.calls.filter Call.isStart =
      if s.started = true ∨ Op.Scan ∈ ops then [Call.Start s.procs] else [] := by
  induction ops generalizing s with
  | nil => simpa [Scanner.run] using hinv
  | cons o os ih =>
    obtain ⟨g1, g2, g3⟩ := step_start B s o
    have hinv2 : (s.step B o).decoder.calls.filter Call.isStart =
        if (s.step B o).started = true then [Call.Start (s.step B o).procs] else [] := by
      rw [g3, g2, g1, hinv]
      cases hs : s.started <;> by_cases ho : o = Op.Scan <;> simp [ho]
    show ((s.step B o).run B os).decoder.calls.filter Call.isStart = _
    rw [ih (s.step B o) hinv2, g1, g2]
    cases hs : s.started <;> by_cases ho : o = Op.Scan <;> simp [ho, eq_comm]

theorem run_snoc (B : Behaviour δ ε ρ) (s : Scanner δ ε) (ops : List Op) (o : Op) :
    s.run B (ops ++ [o]) = (s.run B ops).step B o := by
  induction ops generalizing s with
  | nil => rfl
  | cons a as ih => exact ih (s.step B a)

theorem invoke_offset_le (B : Behaviour δ ε ρ) (s : Scanner δ ε) (m : Method)
    (hStart : ∀ c n d, B.cOffset d ≤ B.cOffset (B.Start c n d).1)
    (hNext : ∀ c d, B.cOffset d ≤ B.cOffset (B.Next c d).1)
    (hClose : ∀ c d, B.cOffset d ≤ B.cOffset (B.Close c d).1) :
    s.FullyScannedBytes B ≤ (s.invoke B m).FullyScannedBytes B := by
  have hsi : s.FullyScannedBytes B ≤ (s.startIfNeeded B).FullyScannedBytes B := by
    unfold Scanner.startIfNeeded
    by_cases hs : s.started = true
    · simp [hs]
    · simp only [hs, Bool.not_eq_true, Bool.not_false, if_true, Scanner.FullyScannedBytes,
        decoder.cOffset, decoder.Start]
      exact hStart _ _ _
  cases m with
  | Scan =>
    show _ ≤ (s.Scan B).1.FullyScannedBytes B
    rw [Scan_eq]
    split
    · exact le_trans hsi (hNext _ _)
    · exact hsi
  | Close => exact hClose _ _
  | Element => exact le_refl _
  | Err => exact le_refl _
  | FullyScannedBytes => exact le_refl _
  | Cancel c => exact le_refl _

theorem invokes_offset_le (B : Behaviour δ ε ρ) (s : Scanner δ ε) (ms : List Method)
    (hStart : ∀ c n d, B.cOffset d ≤ B.cOffset (B.Start c n d).1)
    (hNext : ∀ c d, B.cOffset d ≤ B.cOffset (B.Next c d).1)
    (hClose : ∀ c d, B.cOffset d ≤ B.cOffset (B.Close c d).1) :
    s.FullyScannedBytes B ≤ (s.invokes B ms).FullyScannedBytes B := by
  induction ms generalizing s with
  | nil => exact le_refl _
  | cons m ms ih =>
    exact le_trans (invoke_offset_le B s m hStart hNext hClose) (ih (s.invoke B m))

theorem offsets_cons (B : Behaviour δ ε ρ) (s : Scanner δ ε) (m : Method) (ms : List Method) :
    s.offsets B (m :: ms) =
      (if m = Method.FullyScannedBytes then [s.FullyScannedBytes B] else []) ++
        (s.invoke B m).offsets B ms := by
  cases m <;> simp [Scanner.offsets]

theorem offsets_ge (B : Behaviour δ ε ρ) (s : Scanner δ ε) (ms : List Method)
    (hStart : ∀ c n d, B.cOffset d ≤ B.cOffset (B.Start c n d).1)
    (hNext : ∀ c d, B.cOffset d ≤ B.cOffset (B.Next c d).1)
    (hClose : ∀ c d, B.cOffset d ≤ B.cOffset (B.Close c d).1) :
    ∀ x, x ∈ s.offsets B ms → s.FullyScannedBytes B ≤ x := by
  induction ms generalizing s with
  | nil => intro x hx; simp [Scanner.offsets] at hx
  | cons m ms ih =>
    intro x hx
    rw [offsets_cons, List.mem_append] at hx
    rcases hx with hx | hx
    · by_cases hm : m = Method.FullyScannedBytes
      · simp [hm] at hx
        rw [hx]
      · simp [hm] at hx
    · exact le_trans (invoke_offset_le B s m hStart hNext hClose) (ih (s.invoke B m) x hx)

theorem offsets_pairwise (B : Behaviour δ ε ρ) (s : Scanner δ ε) (ms : List Method)
    (hStart : ∀ c n d, B.cOffset d ≤ B.cOffset (B.Start c n d).1)
    (hNext : ∀ c d, B.cOffset d ≤ B.cOffset (B.Next c d).1)
    (hClose : ∀ c d, B.cOffset d ≤ B.cOffset (B.Close c d).1) :
    List.Pairwise (fun a b => a ≤ b) (s.offsets B ms) := by
  induction ms generalizing s with
  | nil => simp [Scanner.offsets]
  | cons m ms ih =>
    rw [offsets_cons]
    by_cases hm : m = Method.FullyScannedBytes
    · subst hm
      simp only [if_true, List.singleton_append, List.pairwise_cons]
      exact ⟨fun x hx => offsets_ge B s ms hStart hNext hClose x hx, ih _⟩
    · simp only [hm, if_false, List.nil_append]
      exact ih _

/-- In every state reached from a state where a latched error implies that the
scanner is started, a latched error still implies that the scanner is started:
only `Scan` writes the error, after marking the scanner started. -/
theorem run_err_started (B : Behaviour δ ε ρ) (s : Scanner δ ε) (ops : List Op)
    (h : s.err ≠ none → s.started = true) :
    (s.run B ops).err ≠ none → (s.run B ops).started = true := by
  induction ops generalizing s with
  | nil => exact h
  | cons o os ih =>
    apply ih (s.step B o)
    cases o with
    | Scan => exact fun _ => (Scan_calls B s).2.1
    | Close => exact h
    | Cancel c => exact h

theorem New_run_err_started [Inhabited ε] (B : Behaviour δ ε ρ) (ctx : Option Context) (r : ρ)
    (procs : Int) (ops : List Op) :
    ((New B ctx r procs).run B ops).err ≠ none →
      ((New B ctx r procs).run B ops).started = true :=
  run_err_started B (New B ctx r procs) ops (fun h => absurd rfl h)

theorem run_run (B : Behaviour δ ε ρ) (s : Scanner δ ε) (pre ops : List Op) :
    (s.run B pre).run B ops = s.run B (pre ++ ops) := by
  induction pre generalizing s with
  | nil => rfl
  | cons a as ih => exact ih (s.step B a)

end MoreLemmas

/-! ## The value of `Err` -/

section MoreClaims

variable {δ ε ρ : Type}

/-- C11: in every scanner state `Err()` is the value the specification
describes (nil for a latched `io.EOF`, else the latched error, else the closed
indicator of a closed scanner, else the error of the context, which is nil
while the context is live), and an `Err()` call leaves the scanner as it was. -/
theorem C11_Err_value (B : Behaviour δ ε ρ) (s : Scanner δ ε) :
    s.Err = s.ErrSpec ∧ s.invoke B Method.Err = s ∧
      (s.err = none → s.closed = false → s.ctx.Err = none → s.Err = none) := by
  refine ⟨?_, rfl, ?_⟩
  · unfold Scanner.Err Scanner.ErrSpec
    cases he : s.err with
    | none => cases hc : s.closed <;> simp
    | some e => cases e <;> simp
  · intro h1 h2 h3
    simp [Scanner.Err, h1, h2, h3]

/-- Witness for C11: a fresh scanner with a live context has no error. -/
theorem C11_Err_value_witness :
    (New scripted none (Script.mk none [(7, none)]) 1).Err = none :=
  (C11_Err_value scripted (New scripted none (Script.mk none [(7, none)]) 1)).2.2 rfl rfl rfl

/-- C12, counterexample: a decoder error is latched and the scanner is then
closed; `Err()` reports the decoder error, not the closed cause. -/
theorem C12_counterexample :
    ((New scripted none (Script.mk none [(7, some (GoError.other 5))]) 1).run scripted
        [Op.Scan, Op.Close]).closed = true ∧
      ((New scripted none (Script.mk none [(7, some (GoError.other 5))]) 1).run scripted
        [Op.Scan, Op.Close]).err = some (GoError.other 5) ∧
      ((New scripted none (Script.mk none [(7, some (GoError.other 5))]) 1).run scripted
        [Op.Scan, Op.Close]).Err = some (GoError.other 5) ∧
      ((New scripted none (Script.mk none [(7, some (GoError.other 5))]) 1).run scripted
        [Op.Scan, Op.Close]).Err ≠ some GoError.ErrScannerClosed := by
  refine ⟨rfl, rfl, rfl, by decide⟩

/-- C12, amended: the cause reported by `Err()` follows the precedence latched
error > closed > cancellation. A state that holds a latched error other than
`io.EOF` reports that error, whether or not it is closed and whether or not its
context is cancelled; a state that is closed and has no latched error reports
the closed cause, whether or not its context is cancelled. -/
theorem C12_precedence (s t : Scanner δ ε) (e : GoError)
    (herr : s.err = some e) (he : e ≠ GoError.EOF)
    (hnone : t.err = none) (hclosed : t.closed = true) :
    s.Err = some e ∧ t.Err = some GoError.ErrScannerClosed := by
  constructor
  · simp [Scanner.Err, herr, he]
  · simp [Scanner.Err, hnone, hclosed]

/-- Witness for C12 (amended): a closed scanner with a latched decoder error,
and a scanner closed and cancelled before its first scan. -/
theorem C12_precedence_witness :
    ((New scripted none (Script.mk none [(7, some (GoError.other 5))]) 1).run scripted
        [Op.Scan, Op.Close]).Err = some (GoError.other 5) ∧
      ((New scripted none (Script.mk none [(7, none)]) 1).run scripted
        [Op.Close, Op.Cancel GoError.Canceled]).Err = some GoError.ErrScannerClosed :=
  C12_precedence
    ((New scripted none (Script.mk none [(7, some (GoError.other 5))]) 1).run scripted
      [Op.Scan, Op.Close])
    ((New scripted none (Script.mk none [(7, none)]) 1).run scripted
      [Op.Close, Op.Cancel GoError.Canceled])
    (GoError.other 5) rfl (by decide) rfl rfl

/-! ## Starting the decoder, offsets, pulls -/

/-- C13: over every sequence of `Scan` calls, `Close` calls and cancellations on
a scanner returned by `New(ctx, r, procs)`, the `Start` calls received by the
decoder are: none while no `Scan` call has been made, and exactly one, with
argument `procs`, from the first `Scan` call on, whatever `Close` calls and
cancellations came before it. So `Start` is invoked by the first `Scan` call and
by no later `Scan` call and no `Close` call. -/
theorem C13_start_once [Inhabited ε] (B : Behaviour δ ε ρ) (ctx : Option Context) (r : ρ)
    (procs : Int) (ops : List Op) :
    ((New B ctx r procs).run B ops).decoder.calls.filter Call.isStart =
        (if Op.Scan ∈ ops then [Call.Start procs] else []) ∧
      ((New B ctx r procs).run B ops).decoder.startCalls ≤ 1 ∧
      (Op.Scan ∉ ops →
        ((New B ctx r procs).run B ops).decoder.startCalls = 0 ∧
        ((((New B ctx r procs).run B ops).Scan B).1.decoder.calls.filter Call.isStart =
          [Call.Start procs])) := by
  have key : ∀ l : List Op,
      ((New B ctx r procs).run B l).decoder.calls.filter Call.isStart =
        (if Op.Scan ∈ l then [Call.Start procs] else []) := by
    intro l
    have h := run_startCalls B (New B ctx r procs) l (by simp [New, newDecoder])
    simpa [New] using h
  refine ⟨key ops, ?_, ?_⟩
  · unfold decoder.startCalls
    rw [key ops]
    split <;> simp
  · intro hno
    constructor
    · unfold decoder.startCalls
      rw [key ops]
      simp [hno]
    · have h := key (ops ++ [Op.Scan])
      rw [run_snoc] at h
      simpa [Scanner.step] using h

/-- Witness for C13: the scanner is closed and cancelled before its first scan;
that scan still starts the decoder, once, with `procs = 4`. -/
theorem C13_start_once_witness :
    ((New scripted none (Script.mk none [(7, none)]) 4).run scripted
        [Op.Close, Op.Cancel GoError.Canceled]).decoder.startCalls = 0 ∧
      ((((New scripted none (Script.mk none [(7, none)]) 4).run scripted
        [Op.Close, Op.Cancel GoError.Canceled]).Scan scripted).1.decoder.calls.filter
          Call.isStart = [Call.Start 4]) :=
  (C13_start_once scripted none (Script.mk none [(7, none)]) 4
    [Op.Close, Op.Cancel GoError.Canceled]).2.2 (by decide)

/-- C14: `FullyScannedBytes()` returns the current `cOffset` of the decoder and
leaves the scanner as it was; if `Start`, `Next` and `Close` of the decoder
never decrease `cOffset`, then over every sequence of `Scan`, `Close`,
`Element`, `Err` and `FullyScannedBytes` calls (and cancellations), begun in any
scanner state, the values returned by `FullyScannedBytes()` are non-decreasing,
and none is below the value in the initial state. -/
theorem C14_offset_monotone (B : Behaviour δ ε ρ) (s : Scanner δ ε) (ms : List Method)
    (hStart : ∀ c n d, B.cOffset d ≤ B.cOffset (B.Start c n d).1)
    (hNext : ∀ c d, B.cOffset d ≤ B.cOffset (B.Next c d).1)
    (hClose : ∀ c d, B.cOffset d ≤ B.cOffset (B.Close c d).1) :
    s.FullyScannedBytes B = B.cOffset s.decoder.st ∧
      s.invoke B Method.FullyScannedBytes = s ∧
      List.Pairwise (fun a b => a ≤ b) (s.offsets B ms) ∧
      (∀ x, x ∈ s.offsets B ms → s.FullyScannedBytes B ≤ x) ∧
      s.FullyScannedBytes B ≤ (s.invokes B ms).FullyScannedBytes B :=
  ⟨rfl, rfl, offsets_pairwise B s ms hStart hNext hClose,
    offsets_ge B s ms hStart hNext hClose, invokes_offset_le B s ms hStart hNext hClose⟩

/-- Witness for C14: the scripted decoder, whose offset counts the answers
pulled; the offset is read before the first scan, between scans and after the
scanner has stopped. -/
theorem C14_offset_monotone_witness :
    (New scripted none (Script.mk none [(7, none), (8, none)]) 1).offsets scripted
        [Method.FullyScannedBytes, Method.Scan, Method.FullyScannedBytes, Method.Element,
          Method.Scan, Method.Err, Method.FullyScannedBytes, Method.Scan, Method.Close,
          Method.FullyScannedBytes] = [0, 1, 2, 2] ∧
      List.Pairwise (fun a b => a ≤ b)
        ((New scripted none (Script.mk none [(7, none), (8, none)]) 1).offsets scripted
          [Method.FullyScannedBytes, Method.Scan, Method.FullyScannedBytes, Method.Element,
            Method.Scan, Method.Err, Method.FullyScannedBytes, Method.Scan, Method.Close,
            Method.FullyScannedBytes]) :=
  ⟨rfl, (C14_offset_monotone scripted (New scripted none (Script.mk none [(7, none), (8, none)]) 1)
    [Method.FullyScannedBytes, Method.Scan, Method.FullyScannedBytes, Method.Element,
      Method.Scan, Method.Err, Method.FullyScannedBytes, Method.Scan, Method.Close,
      Method.FullyScannedBytes]
    (fun _ _ _ => le_refl _)
    (fun _ d => by
      show d.2 ≤ (scripted.Next _ d).1.2
      unfold scripted
      simp only
      split <;> simp)
    (fun _ _ => le_refl _)).2.2.1⟩

/-- C15: every `Scan` call invokes `Next` at most once: exactly once when, after
the start attempt of that call, there is no latched error, the scanner is not
closed and the context is not cancelled, and not at all otherwise. `Scan`
returns true if and only if `Next` was invoked and returned no error, and then
`Element()` is the record that `Next` call returned. -/
theorem C15_one_pull_per_scan (B : Behaviour δ ε ρ) (s : Scanner δ ε) :
    (s.Scan B).1.decoder.nextCalls =
        s.decoder.nextCalls +
          (if (s.startIfNeeded B).err = none ∧ (s.startIfNeeded B).closed = false ∧
              (s.startIfNeeded B).ctx.Err = none then 1 else 0) ∧
      ((s.Scan B).2 = true ↔
        ((s.startIfNeeded B).err = none ∧ (s.startIfNeeded B).closed = false ∧
            (s.startIfNeeded B).ctx.Err = none) ∧
          (B.Next (s.startIfNeeded B).ctx (s.startIfNeeded B).decoder.st).2.2 = none) ∧
      ((s.Scan B).2 = true →
        (s.Scan B).1.Element =
          (B.Next (s.startIfNeeded B).ctx (s.startIfNeeded B).decoder.st).2.1) := by
  refine ⟨?_, ?_, ?_⟩
  · unfold decoder.nextCalls
    rw [(Scan_calls B s).1, List.count_append, List.count_append]
    have h1 : List.count Call.Next (if s.started = true then [] else [Call.Start s.procs]) = 0 := by
      split <;> simp [List.count_cons]
    rw [h1, Nat.add_zero]
    split <;> simp
  · rw [Scan_eq]
    by_cases hc : (s.startIfNeeded B).err = none ∧ (s.startIfNeeded B).closed = false ∧
        (s.startIfNeeded B).ctx.Err = none
    · simp [hc]
    · simp [hc]
  · rw [Scan_eq]
    by_cases hc : (s.startIfNeeded B).err = none ∧ (s.startIfNeeded B).closed = false ∧
        (s.startIfNeeded B).ctx.Err = none
    · simp only [if_pos hc, Scanner.Element]
      exact fun _ => trivial
    · simp [hc]

/-- Witness for C15: the first scan of a fresh scanner pulls the record 7. -/
theorem C15_one_pull_per_scan_witness :
    ((New scripted none (Script.mk none [(7, none)]) 1).Scan scripted).1.Element = 7 :=
  (C15_one_pull_per_scan scripted (New scripted none (Script.mk none [(7, none)]) 1)).2.2 rfl

/-! ## Latched causes and the frame of `Scan` -/

/-- C16: in every state reached from `New` in which an error `e` other than
`io.EOF` is latched (it came from `Start` or `Next`, and `Err()` returns it),
`Err()` still returns `e` after every further sequence of `Scan` calls, `Close`
calls and cancellations. -/
theorem C16_failure_not_masked [Inhabited ε] (B : Behaviour δ ε ρ) (ctx : Option Context)
    (r : ρ) (procs : Int) (pre ops : List Op) (e : GoError)
    (herr : ((New B ctx r procs).run B pre).err = some e) (he : e ≠ GoError.EOF) :
    ((New B ctx r procs).run B pre).Err = some e ∧
      (((New B ctx r procs).run B pre).run B ops).Err = some e ∧
      ((New B ctx r procs).run B (pre ++ ops)).Err = some e := by
  have hs : ((New B ctx r procs).run B pre).started = true :=
    New_run_err_started B ctx r procs pre (by rw [herr]; simp)
  have hst : ((New B ctx r procs).run B pre).Stopped := ⟨hs, Or.inl (by rw [herr]; simp)⟩
  have hErr : ∀ t : Scanner δ ε, t.err = some e → t.Err = some e := by
    intro t ht
    simp [Scanner.Err, ht, he]
  have h2 := hErr _ ((run_stopped B _ hst ops).2.1.trans herr)
  refine ⟨hErr _ herr, h2, ?_⟩
  rw [← run_run]
  exact h2

/-- Witness for C16: the second pull fails; the scanner is then closed,
cancelled and scanned again. -/
theorem C16_failure_not_masked_witness :
    ((New scripted none (Script.mk none [(7, none), (0, some (GoError.other 5))]) 1).run scripted
        [Op.Scan, Op.Scan]).Err = some (GoError.other 5) ∧
      (((New scripted none (Script.mk none [(7, none), (0, some (GoError.other 5))]) 1).run
        scripted [Op.Scan, Op.Scan]).run scripted
          [Op.Close, Op.Cancel GoError.Canceled, Op.Scan]).Err = some (GoError.other 5) ∧
      ((New scripted none (Script.mk none [(7, none), (0, some (GoError.other 5))]) 1).run scripted
        ([Op.Scan, Op.Scan] ++ [Op.Close, Op.Cancel GoError.Canceled, Op.Scan])).Err =
          some (GoError.other 5) :=
  C16_failure_not_masked scripted none
    (Script.mk none [(7, none), (0, some (GoError.other 5))]) 1 [Op.Scan, Op.Scan]
    [Op.Close, Op.Cancel GoError.Canceled, Op.Scan] (GoError.other 5) rfl (by decide)

/-- C17: a `Scan` call on a started scanner that is closed, or holds a latched
error (`io.EOF` included), or whose context is cancelled, returns false and
leaves the scanner exactly as it was: every field, and the decoder with its call
log, so neither `Start` nor `Next` is invoked. -/
theorem C17_stopped_scan_is_noop (B : Behaviour δ ε ρ) (s : Scanner δ ε)
    (hs : s.started = true)
    (h : s.closed = true ∨ s.err ≠ none ∨ s.ctx.Err ≠ none) :
    s.Scan B = (s, false) ∧ (s.Scan B).1.decoder.calls = s.decoder.calls := by
  have hst : s.Stopped := by
    refine ⟨hs, ?_⟩
    rcases h with h | h | h
    · exact Or.inr (Or.inl h)
    · exact Or.inl h
    · exact Or.inr (Or.inr h)
  rw [Scan_of_stopped B s hst]
  exact ⟨rfl, rfl⟩

/-- Witness for C17: a scanner that has reached the end of its input. -/
theorem C17_stopped_scan_is_noop_witness :
    ((New scripted none (Script.mk none []) 1).Scan scripted).1.Scan scripted =
        (((New scripted none (Script.mk none []) 1).Scan scripted).1, false) ∧
      (((New scripted none (Script.mk none []) 1).Scan scripted).1.Scan scripted).1.decoder.calls =
        ((New scripted none (Script.mk none []) 1).Scan scripted).1.decoder.calls :=
  C17_stopped_scan_is_noop scripted ((New scripted none (Script.mk none []) 1).Scan scripted).1
    rfl (Or.inr (Or.inl (by decide)))

/-- C18: in every state reached from `New` in which `io.EOF` is latched (by
`Next` or by `Start`), `Err()` is nil, and it is still nil after every further
sequence of `Scan` calls, `Close` calls and cancellations; a scanner closed or
cancelled after a clean end of input reports no error. -/
theorem C18_eof_stays_nil [Inhabited ε] (B : Behaviour δ ε ρ) (ctx : Option Context)
    (r : ρ) (procs : Int) (pre ops : List Op)
    (herr : ((New B ctx r procs).run B pre).err = some GoError.EOF) :
    ((New B ctx r procs).run B pre).Err = none ∧
      (((New B ctx r procs).run B pre).run B ops).Err = none ∧
      (((New B ctx r procs).run B pre).run B ops).err = some GoError.EOF := by
  have hs : ((New B ctx r procs).run B pre).started = true :=
    New_run_err_started B ctx r procs pre (by rw [herr]; simp)
  have hst : ((New B ctx r procs).run B pre).Stopped := ⟨hs, Or.inl (by rw [herr]; simp)⟩
  have hErr : ∀ t : Scanner δ ε, t.err = some GoError.EOF → t.Err = none := by
    intro t ht
    simp [Scanner.Err, ht]
  have h2 := (run_stopped B _ hst ops).2.1.trans herr
  exact ⟨hErr _ herr, hErr _ h2, h2⟩

/-- Witness for C18: one record, then the end of input, then `Close` and a
cancellation. -/
theorem C18_eof_stays_nil_witness :
    ((New scripted none (Script.mk none [(7, none)]) 1).run scripted
        [Op.Scan, Op.Scan]).Err = none ∧
      (((New scripted none (Script.mk none [(7, none)]) 1).run scripted
        [Op.Scan, Op.Scan]).run scripted [Op.Close, Op.Cancel GoError.Canceled, Op.Scan]).Err
          = none ∧
      (((New scripted none (Script.mk none [(7, none)]) 1).run scripted
        [Op.Scan, Op.Scan]).run scripted [Op.Close, Op.Cancel GoError.Canceled, Op.Scan]).err
          = some GoError.EOF :=
  C18_eof_stays_nil scripted none (Script.mk none [(7, none)]) 1 [Op.Scan, Op.Scan]
    [Op.Close, Op.Cancel GoError.Canceled, Op.Scan] rfl

/-- C19: when a `Scan` call pulls from the decoder and `Next` returns `(v, e)`
with `e` non-nil (`io.EOF` included), the call returns false and `Element()` is
`v` afterwards, whatever record was current before; when a `Scan` call does not
pull (after its start attempt an error is latched, or the scanner is closed, or
the context is cancelled) it returns false and `Element()` is unchanged. -/
theorem C19_failed_pull_overwrites (B : Behaviour δ ε ρ) (s t : Scanner δ ε) (v : ε)
    (e : GoError)
    (hpull : (s.startIfNeeded B).err = none ∧ (s.startIfNeeded B).closed = false ∧
      (s.startIfNeeded B).ctx.Err = none)
    (hnext : (B.Next (s.startIfNeeded B).ctx (s.startIfNeeded B).decoder.st).2 = (v, some e))
    (hnopull : ¬ ((t.startIfNeeded B).err = none ∧ (t.startIfNeeded B).closed = false ∧
      (t.startIfNeeded B).ctx.Err = none)) :
    ((s.Scan B).2 = false ∧ (s.Scan B).1.Element = v ∧
        (s.Scan B).1.decoder.nextCalls = s.decoder.nextCalls + 1) ∧
      ((t.Scan B).2 = false ∧ (t.Scan B).1.Element = t.Element ∧
        (t.Scan B).1.decoder.nextCalls = t.decoder.nextCalls) := by
  have cnt : ∀ u : Scanner δ ε,
      List.count Call.Next (if u.started = true then [] else [Call.Start u.procs]) = 0 := by
    intro u
    split <;> simp [List.count_cons]
  constructor
  · refine ⟨?_, ?_, ?_⟩
    · rw [Scan_eq, if_pos hpull]
      simp [hnext]
    · rw [Scan_eq, if_pos hpull]
      simp [Scanner.Element, hnext]
    · unfold decoder.nextCalls
      rw [(Scan_calls B s).1, if_pos hpull, List.count_append, List.count_append, cnt]
      simp
  · refine ⟨?_, ?_, ?_⟩
    · rw [Scan_eq, if_neg hnopull]
    · rw [Scan_eq, if_neg hnopull]
      exact (startIfNeeded_fields B t).2.2.2.1
    · unfold decoder.nextCalls
      rw [(Scan_calls B t).1, if_neg hnopull, List.count_append, List.count_append, cnt]
      simp

/-- Witness for C19: record 7 is current; the next pull gives `(0, io.EOF)`
and the element becomes 0, while one more scan, which does not pull, keeps it. -/
theorem C19_failed_pull_overwrites_witness :
    ((New scripted none (Script.mk none [(7, none)]) 1).Scan scripted).1.Element = 7 ∧
      ((((New scripted none (Script.mk none [(7, none)]) 1).Scan scripted).1.Scan scripted).2
          = false ∧
        (((New scripted none (Script.mk none [(7, none)]) 1).Scan scripted).1.Scan
          scripted).1.Element = 0 ∧
        (((New scripted none (Script.mk none [(7, none)]) 1).Scan scripted).1.Scan
          scripted).1.decoder.nextCalls =
          ((New scripted none (Script.mk none [(7, none)]) 1).Scan scripted).1.decoder.nextCalls
            + 1) ∧
      (((New scripted none (Script.mk none [(7, none)]) 1).scans scripted 2).Scan scripted).2
          = false ∧
      (((New scripted none (Script.mk none [(7, none)]) 1).scans scripted 2).Scan
          scripted).1.Element =
        ((New scripted none (Script.mk none [(7, none)]) 1).scans scripted 2).Element :=
  have h := C19_failed_pull_overwrites scripted
    ((New scripted none (Script.mk none [(7, none)]) 1).Scan scripted).1
    ((New scripted none (Script.mk none [(7, none)]) 1).scans scripted 2) 0 GoError.EOF
    (by decide) rfl (by decide)
  ⟨rfl, h.1, h.2.1, h.2.2.1⟩

end MoreClaims

end osmpbf
